import Mathlib

/-!
Verification model of `pathtemplater` (src/pathtemplater/pathtemplater.py).

Python strings are modelled as `List Char`; Python `dict`s of placeholder
values as insertion-ordered association lists with unique keys kept by an
update operation mirroring `dict.update`; `pathlib.PurePath` as a root flag
plus a list of path segments, with `parent`, `name`, `suffix`, `suffixes`,
`with_suffix` and `/` translated from CPython's pathlib; the
`string.Formatter().vformat` machinery (together with `_PartialDict` /
`_AsIsFormat`) as a tokenizer plus renderer.  Fallible Python code returns
`Except Err`; `warnings.warn` calls are collected into a warning list.
-/

deriving instance DecidableEq for Except

namespace PathTemplaterModel

/-- Python strings, modelled as lists of characters. -/
abbrev Str := List Char

/-- Shorthand to write a modelled Python string from a literal. -/
def chars (s : String) : Str := s.data

/-- Join a list of strings (Python `''.join`). -/
def listJoin : List Str → Str
  | [] => []
  | s :: rest => s ++ listJoin rest

/-- Python exception kinds raised by the modelled code. -/
inductive Err where
  | valueError (msg : Str)
  | keyError (key : Str)
  | typeError
  | indexError
  | nameError
  | attrError
  | recursionError
  | unmodeled
deriving DecidableEq, Repr

/-- Placeholder-value mapping (`format_dict`): insertion-ordered assoc list. -/
abbrev FormatDict := List (Str × Str)

/-- `d[k]` lookup: first matching key (keys are unique by construction). -/
def dictLookup (d : FormatDict) (k : Str) : Option Str :=
  (d.find? (fun kv => kv.1 = k)).map (fun kv => kv.2)

/-- One step of Python `dict.update`: replace in place if the key exists,
append otherwise (insertion order preserved). -/
def dictUpd (d : FormatDict) (kv : Str × Str) : FormatDict :=
  if d.any (fun p => p.1 = kv.1) then
    d.map (fun p => if p.1 = kv.1 then (p.1, kv.2) else p)
  else d ++ [kv]

/-- Python `dict.update` with several entries. -/
def dictMerge (d : FormatDict) (kvs : List (Str × Str)) : FormatDict :=
  kvs.foldl dictUpd d

/-! ## pathlib model

`pathlib.PurePosixPath`: a root flag plus parsed segments.  Parsing drops
empty segments and `'.'` segments (CPython `_parse_parts`); `'..'` is kept. -/

/-- Split a string on `'/'` (like Python `str.split('/')`; never empty). -/
def splitSlash : Str → List Str
  | [] => [[]]
  | c :: cs =>
    if c = '/' then [] :: splitSlash cs
    else
      match splitSlash cs with
      | [] => [[c]]
      | h :: t => (c :: h) :: t

/-- Split a string on `'.'` (Python `str.split('.')`; never empty). -/
def splitDot : Str → List Str
  | [] => [[]]
  | c :: cs =>
    if c = '.' then [] :: splitDot cs
    else
      match splitDot cs with
      | [] => [[c]]
      | h :: t => (c :: h) :: t

/-- A `pathlib` path: absolute flag plus segments. -/
structure PyPath where
  root : Bool
  parts : List Str
deriving DecidableEq, Repr

/-- `pathlib.Path(s)`: parse a string, dropping empty and `'.'` segments. -/
def parseRel (s : Str) : PyPath :=
  { root := s.head? = some '/',
    parts := (splitSlash s).filter (fun seg => seg ≠ [] ∧ seg ≠ ['.']) }

/-- `p / q` (`PurePath.__truediv__`): an absolute right side replaces. -/
def PyPath.join (p q : PyPath) : PyPath :=
  if q.root then q else { root := p.root, parts := p.parts ++ q.parts }

/-- `PurePath.name`: final segment, `''` for an empty path. -/
def PyPath.name (p : PyPath) : Str := p.parts.getLast?.getD []

/-- `PurePath.parent`: drop the final segment. -/
def PyPath.parent (p : PyPath) : PyPath :=
  { root := p.root, parts := p.parts.dropLast }

/-- `str(path)`: `'.'` for an empty relative path, `'/'`-joined otherwise. -/
def PyPath.str (p : PyPath) : Str :=
  match p.parts with
  | [] => if p.root then ['/'] else ['.']
  | h :: t =>
    (if p.root then ['/'] else []) ++
      (t.foldl (fun acc seg => acc ++ '/' :: seg) h)

/-- `PurePath.suffixes` of a *name*: `[]` if the name ends with a dot,
else leading dots are stripped and the name is split on dots; each part
after the first becomes a `'.'`-prefixed suffix (CPython source). -/
def nameSuffixes (nm : Str) : List Str :=
  if nm.getLast? = some '.' then []
  else ((splitDot (nm.dropWhile (fun c => c = '.'))).tail).map (fun s => '.' :: s)

/-- Index of the first `'.'` in a string, if any. -/
def findDotIdx : Str → Option Nat
  | [] => none
  | c :: cs => if c = '.' then some 0 else (findDotIdx cs).map (fun j => j + 1)

/-- Index of the last `'.'` in a name, if any (`str.rfind('.')`). -/
def rfindDot (nm : Str) : Option Nat :=
  match findDotIdx nm.reverse with
  | none => none
  | some j => some (nm.length - 1 - j)

/-- `PurePath.suffix` of a *name*: text from the last dot, provided that dot
is neither the first nor the last character (CPython source uses `rfind`). -/
def nameSuffix (nm : Str) : Str :=
  match rfindDot nm with
  | none => []
  | some i => if 0 < i ∧ i < nm.length - 1 then nm.drop i else []

/-- `PurePath.suffixes` of a path. -/
def PyPath.suffixes (p : PyPath) : List Str := nameSuffixes p.name

/-- `PurePath.with_suffix(suffix)`: validity checks, then the last suffix of
the current name (per `PurePath.suffix`) is replaced by `suffix`. -/
def PyPath.withSuffix (p : PyPath) (suffix : Str) : Except Err PyPath :=
  if suffix.any (fun c => c = '/') then
    .error (.valueError (chars "Invalid suffix"))
  else if (suffix ≠ [] ∧ suffix.head? ≠ some '.') ∨ suffix = ['.'] then
    .error (.valueError (chars "Invalid suffix"))
  else
    match p.parts.getLast? with
    | none => .error (.valueError (chars "empty name"))
    | some nm =>
      let old := nameSuffix nm
      let newName := (if old = [] then nm else nm.take (nm.length - old.length)) ++ suffix
      .ok { root := p.root, parts := p.parts.dropLast ++ [newName] }

/-! ## Format-string model

`string.Formatter().vformat(s, (), d)` and `str.format(**kwargs)` share
CPython's template parser.  A template is tokenized into literal runs and
replacement fields `\x7bname\x7d`, `\x7bname[index]\x7d`,
`\x7bname:spec\x7d`.  Attribute access (`\x7bname.attr\x7d`), several
accessors on one field, and nested braces in a format spec exist in Python
but are outside this model (`Err.unmodeled`); no claim exercises them. -/

/-- A parsed template token. -/
inductive Tok where
  | lit (s : Str)
  | field (name : Str) (idx : Option Str) (spec : Option Str)
deriving DecidableEq, Repr

/-- Split a raw field text into name and optional single `[index]` accessor. -/
def parseFieldName (f : Str) : Except Err (Str × Option Str) :=
  let name := f.takeWhile (fun c => c ≠ '[' ∧ c ≠ '.')
  match f.drop name.length with
  | [] => .ok (name, none)
  | '.' :: _ => .error .unmodeled
  | '[' :: r =>
    let idx := r.takeWhile (fun c => c ≠ ']')
    (match r.drop idx.length with
     | [']'] =>
       if idx = [] then .error (.valueError (chars "Empty attribute in format string"))
       else .ok (name, some idx)
     | ']' :: _ => .error .unmodeled
     | _ => .error (.valueError (chars "Missing close bracket in format string")))
  | _ => .error .unmodeled

/-- Scanner state for the template tokenizer. -/
inductive ScanSt where
  | lit
  | afterOpen
  | afterClose
  | inField (acc : Str) (inBr : Bool)
  | inSpec (facc sacc : Str)

/-- One field-text character: next state, or the completed field (no spec). -/
def fieldStep (acc : Str) (inBr : Bool) (c : Char) :
    Except Err (ScanSt ⊕ (Str × Option Str)) :=
  if inBr then
    if c = ']' then .ok (.inl (.inField (acc ++ [']']) false))
    else .ok (.inl (.inField (acc ++ [c]) true))
  else if c = '{' then .error (.valueError (chars "unexpected open brace in field name"))
  else if c = '[' then .ok (.inl (.inField (acc ++ ['[']) true))
  else if c = ':' then .ok (.inl (.inSpec acc []))
  else if c = '}' then .ok (.inr (acc, none))
  else .ok (.inl (.inField (acc ++ [c]) false))

/-- Tokenizer state machine (CPython `Formatter.parse` semantics). -/
def scanAux : Str → ScanSt → Except Err (List Tok)
  | [], .lit => .ok []
  | [], _ => .error (.valueError (chars "Single brace encountered in format string"))
  | c :: cs, .lit =>
    if c = '{' then scanAux cs .afterOpen
    else if c = '}' then scanAux cs .afterClose
    else do
      let ts ← scanAux cs .lit
      .ok (.lit [c] :: ts)
  | c :: cs, .afterOpen =>
    if c = '{' then do
      let ts ← scanAux cs .lit
      .ok (.lit ['{'] :: ts)
    else
      (match fieldStep [] false c with
       | .error e => .error e
       | .ok (.inl st) => scanAux cs st
       | .ok (.inr (f, spec)) => do
         let (name, idx) ← parseFieldName f
         let ts ← scanAux cs .lit
         .ok (.field name idx spec :: ts))
  | c :: cs, .afterClose =>
    if c = '}' then do
      let ts ← scanAux cs .lit
      .ok (.lit ['}'] :: ts)
    else .error (.valueError (chars "Single brace encountered in format string"))
  | c :: cs, .inField acc inBr =>
    (match fieldStep acc inBr c with
     | .error e => .error e
     | .ok (.inl st) => scanAux cs st
     | .ok (.inr (f, spec)) => do
       let (name, idx) ← parseFieldName f
       let ts ← scanAux cs .lit
       .ok (.field name idx spec :: ts))
  | c :: cs, .inSpec facc sacc =>
    if c = '}' then do
      let (name, idx) ← parseFieldName facc
      let ts ← scanAux cs .lit
      .ok (.field name idx (some sacc) :: ts)
    else if c = '{' then .error .unmodeled
    else scanAux cs (.inSpec facc (sacc ++ [c]))

/-- Parse a template string into tokens. -/
def scanToks (s : Str) : Except Err (List Tok) := scanAux s .lit

/-- Digits to a natural number. -/
def toNatDigits (s : Str) : Nat :=
  s.foldl (fun n c => n * 10 + (c.toNat - 48)) 0

/-- Is this an alignment character of a format spec? -/
def isAlignChar (c : Char) : Bool := c = '<' || c = '>' || c = '^'

/-- Partial model of `str.__format__` for a nonempty spec:
`[[fill]align][width][s]` with `'<'` default alignment; anything further is
outside the model.  Claims only ever evaluate empty specs. -/
def pySpecFormat (v : Str) (sp : Str) : Except Err Str :=
  let far : Char × Char × Str :=
    match sp with
    | c1 :: c2 :: r =>
      if isAlignChar c2 then (c1, c2, r)
      else if isAlignChar c1 then (' ', c1, c2 :: r)
      else (' ', '<', sp)
    | [c1] => if isAlignChar c1 then (' ', c1, []) else (' ', '<', sp)
    | [] => (' ', '<', sp)
  let fill := far.1
  let align := far.2.1
  let rest := far.2.2
  let widthDigits := rest.takeWhile Char.isDigit
  let rest2 := rest.drop widthDigits.length
  let rest3 := if rest2 = ['s'] then ([] : Str) else rest2
  if rest3 ≠ [] then .error .unmodeled
  else
    let w := toNatDigits widthDigits
    if v.length ≥ w then .ok v
    else
      let padLen := w - v.length
      if align = '>' then .ok (List.replicate padLen fill ++ v)
      else if align = '^' then
        .ok (List.replicate (padLen / 2) fill ++ v ++
             List.replicate (padLen - padLen / 2) fill)
      else .ok (v ++ List.replicate padLen fill)

/-- `format(value, spec)` for a string value. -/
def strFormat (v : Str) (spec : Option Str) : Except Err Str :=
  match spec with
  | none => .ok v
  | some [] => .ok v
  | some sp => pySpecFormat v sp

/-- `_AsIsFormat.__format__` / `__getitem__`: re-emit the original field text. -/
def asIsText (name : Str) (idx : Option Str) (spec : Option Str) : Str :=
  match idx with
  | some i => '{' :: name ++ '[' :: i ++ [']', '}']
  | none =>
    '{' :: name ++
      (match spec with
       | some sp => if sp ≠ [] then ':' :: sp else []
       | none => []) ++ ['}']

/-- Render one token against the mapping `d`.

`pmode = true` is `vformat` over a `_PartialDict` (missing keys yield an
`_AsIsFormat`); `pmode = false` is `str.format(**d)` (missing keys raise
`KeyError`).  An empty or all-digits field name is positional and, the
argument tuple being always `()` in the source, raises `IndexError`.
For a missing key with an all-digits index, `_AsIsFormat.__getitem__`
concatenates a `str` with an `int` and raises `TypeError`. -/
def renderTok (pmode : Bool) (d : FormatDict) : Tok → Except Err Str
  | .lit s => .ok s
  | .field name idx spec =>
    if name = [] ∨ name.all Char.isDigit then .error .indexError
    else
      match dictLookup d name with
      | some v =>
        (match idx with
         | none => strFormat v spec
         | some i =>
           if i.all Char.isDigit then
             (match v.get? (toNatDigits i) with
              | some ch => strFormat [ch] spec
              | none => .error .indexError)
           else .error .typeError)
      | none =>
        if pmode then
          (match idx with
           | none => .ok (asIsText name none spec)
           | some i =>
             if i.all Char.isDigit then .error .typeError
             else strFormat (asIsText name (some i) none) spec)
        else .error (.keyError name)

/-- Render each token in order, stopping at the first exception. -/
def renderList (pmode : Bool) (d : FormatDict) : List Tok → Except Err (List Str)
  | [] => .ok []
  | t :: ts => do
    let s ← renderTok pmode d t
    let rest ← renderList pmode d ts
    .ok (s :: rest)

/-- Render a token list; concatenate the pieces. -/
def renderToks (pmode : Bool) (d : FormatDict) (toks : List Tok) : Except Err Str := do
  let pieces ← renderList pmode d toks
  .ok (listJoin pieces)

/-- `string.Formatter().vformat(s, (), _PartialDict(d))`. -/
def vformatPartial (d : FormatDict) (s : Str) : Except Err Str := do
  let toks ← scanToks s
  renderToks true d toks

/-- `s.format(**d)` (full substitution). -/
def pyStrFormat (s : Str) (d : FormatDict) : Except Err Str := do
  let toks ← scanToks s
  renderToks false d toks

/-! ## PathTemplater data model

Dynamically-registered bound methods (`setattr` in `__init__`,
`add_alt_suffixes`, `add_preset_formats`) become a registry: an ordered
list of (attribute name, entry); `setattr` appends, `getattr` takes the
last match and otherwise falls back to the class's own method names. -/

/-- A preset field value: scalar string, call-spec `([args], \x7bkwargs\x7d)`,
or non-string iterable of values. -/
inductive PresetField where
  | scalar (v : Str)
  | call (args : List Str) (kw : List (Str × Str))
  | iter (vs : List Str)
deriving DecidableEq, Repr

/-- Which bound function `add_preset_formats` registered for a preset. -/
inductive PresetKind where
  | addtodict
  | withcalls
  | expandp
deriving DecidableEq, Repr

/-- A registered bound method. -/
inductive RegEntry where
  | topdir (name value : Str)
  | altsuffix (name value : Str) (append : Bool)
  | preset (kind : PresetKind) (fields : List (Str × PresetField))
deriving DecidableEq, Repr

/-- The value stored in `_directory`: a string, an already-parsed path
(as stored by `create()`), or — after the buggy `clear_dict()` — an empty
Python `dict`. -/
inductive DirVal where
  | strv (s : Str)
  | pathv (p : PyPath)
  | dictv
deriving DecidableEq, Repr

/-- The `PathTemplater` instance state. -/
structure PT where
  topdirName : Option Str
  topdirValue : Option Str
  directory : Option DirVal
  filenameTemplate : Option Str
  suffix : Option Str
  filenameAffix : Str
  altsuffixName : Option Str
  altsuffixValue : Str
  altsuffixAppend : Bool
  registry : List (Str × RegEntry)
  formatDict : FormatDict
deriving DecidableEq, Repr

/-- The state set up by `_reset_topdir`, `_reset_altsuffix`, `_reset_dfs`. -/
def PT.blank : PT :=
  { topdirName := none, topdirValue := none, directory := none,
    filenameTemplate := none, suffix := some [], filenameAffix := [],
    altsuffixName := none, altsuffixValue := [], altsuffixAppend := false,
    registry := [], formatDict := [] }

/-- `getattr` among registered bound methods: the latest `setattr` wins. -/
def regLookup (X : PT) (nm : Str) : Option RegEntry :=
  ((X.registry.reverse).find? (fun p => p.1 = nm)).map (fun p => p.2)

/-- Names of the methods defined on the `PathTemplater` class itself
(reachable by `getattr` besides the registered bound methods). -/
def builtinNames : List Str :=
  [chars "add_alt_suffixes", chars "add_preset_formats", chars "create",
   chars "create_fromparts", chars "get_directory_aspathlib",
   chars "get_directory", chars "use", chars "add_to_dict", chars "clear_dict",
   chars "new_directory", chars "new_template", chars "remove_affix",
   chars "new_affix", chars "apply_affix", chars "new_suffix",
   chars "no_suffix", chars "reset_altsuffix", chars "expand_ends",
   chars "apply_format", chars "pformat", chars "format", chars "expand"]

/-- `getattr(X, nm, None) is not None`. -/
def getattrExists (X : PT) (nm : Str) : Bool :=
  (regLookup X nm).isSome || builtinNames.contains nm

/-- `_is_initialized`. -/
def isInit (X : PT) : Bool :=
  X.topdirName.isSome && X.directory.isSome && X.filenameTemplate.isSome

/-- A computation result together with the warnings it emitted. -/
abbrev Res (α : Type) := List Str × Except Err α

/-- Warning text of `_set_topdir` on an already-set top directory. -/
def warnTopdirMsg (n : Str) : Str :=
  chars "setting top directory on PathTemplater that is already set to same top directory " ++ n

/-- Warning text of `add_to_dict()` with no arguments. -/
def warnAddMsg : Str :=
  chars "add_to_dict() called on PathTemplater with no arguments"

/-! ### Pure field derivations

Each Python method begins `new_obj = copy.deepcopy(self)` and then assigns
fields of the copy only; the deep copy is the functional record update.
The heap layer below makes the copy/no-aliasing discipline explicit. -/

/-- `new_directory` (note: stores its argument into `_directory`). -/
def newDirectory (X : PT) (d : DirVal) : PT := { X with directory := some d }

/-- `new_template`. -/
def newTemplate (X : PT) (t : Str) : PT := { X with filenameTemplate := some t }

/-- `new_affix`. -/
def newAffix (X : PT) (a : Str) : PT := { X with filenameAffix := a }

/-- `remove_affix` = `new_affix("")`. -/
def removeAffix (X : PT) : PT := newAffix X []

/-- `_get_combined_template_affix` (raises `TypeError` on `None + str`
only if uninitialized; callers guard, so totalized with `getD`). -/
def combinedTemplateAffix (X : PT) : Str :=
  X.filenameTemplate.getD [] ++ X.filenameAffix

/-- `apply_affix`. -/
def applyAffix (X : PT) : PT :=
  { X with filenameTemplate := some (combinedTemplateAffix X), filenameAffix := [] }

/-- `new_suffix` (argument `none` models Python `None`). -/
def newSuffix (X : PT) (s : Option Str) : PT := { X with suffix := s }

/-- `no_suffix` = `new_suffix(None)`. -/
def noSuffix (X : PT) : PT := newSuffix X none

/-- `reset_altsuffix`. -/
def resetAltsuffix (X : PT) : PT :=
  { X with altsuffixName := none, altsuffixValue := [], altsuffixAppend := false }

/-- `add_to_dict(**kwargs)`: warns (and performs no update) when empty. -/
def addToDict (X : PT) (kvs : List (Str × Str)) : Res PT :=
  if kvs = [] then ([warnAddMsg], .ok X)
  else ([], .ok { X with formatDict := dictMerge X.formatDict kvs })

/-- `clear_dict`: the source returns `self.new_directory(\x7b\x7d)` —
it replaces `_directory` with an empty dict and leaves `_format_dict`
untouched. -/
def clearDict (X : PT) : PT := newDirectory X .dictv

/-- `_set_topdir`: warn if already on this top directory, then set it. -/
def setTopdir (X : PT) (n v : Str) : Res PT :=
  ((if X.topdirName = some n then [warnTopdirMsg n] else []),
   .ok { X with topdirName := some n, topdirValue := some v })

/-- `create_fromparts`. -/
def createFromparts (X : PT) (dv : DirVal) (t : Str) (s : Str) (a : Str)
    (fd : List (Str × Str)) : Except Err PT :=
  if isInit X then
    .error (.valueError (chars "Cannot use create_fromparts() with initialized PathTemplater"))
  else
    .ok { X with directory := some dv, filenameTemplate := some t,
                 suffix := some s, filenameAffix := a,
                 formatDict := dictMerge X.formatDict fd }

/-- `create`: split `path` into parent directory, combined suffixes, and the
template (`name.replace(suffix, "")` — a *global* replace). -/
def pyReplaceFuel : Nat → Str → Str → Str → Str
  | 0, s, _, _ => s
  | _ + 1, [], _, _ => []
  | fuel + 1, c :: cs, pat, repl =>
    if pat ≠ [] ∧ pat.isPrefixOf (c :: cs) then
      repl ++ pyReplaceFuel fuel ((c :: cs).drop pat.length) pat repl
    else c :: pyReplaceFuel fuel cs pat repl

/-- Python `s.replace(pat, repl)` (all non-overlapping occurrences,
left to right; an empty pattern with empty replacement is the identity). -/
def pyReplace (s pat repl : Str) : Str := pyReplaceFuel s.length s pat repl

/-- `create(path, filename_affix, format_dict)`. -/
def create (X : PT) (path : Str) (a : Str) (fd : List (Str × Str)) :
    Except Err PT :=
  if isInit X then
    .error (.valueError (chars "Cannot use create() with initialized PathTemplater"))
  else
    let p := parseRel path
    let sfx := listJoin p.suffixes
    let tmpl := pyReplace p.name sfx []
    createFromparts X (.pathv p.parent) tmpl sfx a fd

/-! ### Rendering -/

/-- The effective suffix computed inside `use()`:
with an alternate-suffix record, `append` concatenates `_suffix` (a
`TypeError` if that is `None`) with the alternate value, else the alternate
value alone; otherwise the base `_suffix` (possibly `None`). -/
def effSuffix (X : PT) : Except Err (Option Str) :=
  match X.altsuffixName with
  | some _ =>
    if X.altsuffixAppend then
      match X.suffix with
      | some s => .ok (some (s ++ X.altsuffixValue))
      | none => .error .typeError
    else .ok (some X.altsuffixValue)
  | none => .ok X.suffix

/-- `get_directory_aspathlib`: `Path(topdir_value) / directory`;
joining with the buggy dict directory raises `TypeError`. -/
def getDirectoryAspathlib (X : PT) : Except Err PyPath :=
  if ¬ isInit X then
    .error (.valueError (chars "Cannot use() PathTemplater - not fully initialized"))
  else
    match X.topdirValue with
    | none => .error .typeError
    | some tv =>
      match X.directory with
      | some (.strv s) => .ok ((parseRel tv).join (parseRel s))
      | some (.pathv p) => .ok ((parseRel tv).join p)
      | some .dictv => .error .typeError
      | none => .error (.valueError (chars "Cannot use() PathTemplater - not fully initialized"))

/-- `use()`: assemble the path, apply the effective suffix on top of all
dotted extensions already in the filename via `with_suffix`, then partially
format against `format_dict`. -/
def use (X : PT) : Except Err Str := do
  let dirP ← getDirectoryAspathlib X
  let p1 := dirP.join (parseRel (combinedTemplateAffix X))
  let sfx ← effSuffix X
  let p2 ←
    (match sfx with
     | some s =>
       if s ≠ [] then p1.withSuffix (listJoin p1.suffixes ++ s) else .ok p1
     | none => .ok p1)
  vformatPartial X.formatDict p2.str

/-- `format(**kwargs)` = `self.use().format(**kwargs)`. -/
def formatFull (X : PT) (kw : List (Str × Str)) : Except Err Str := do
  let s ← use X
  pyStrFormat s kw

/-- `pformat(**kwargs)` = `self.add_to_dict(**kwargs).use()`. -/
def pformat (X : PT) (kw : List (Str × Str)) : Res Str :=
  match addToDict X kw with
  | (ws, .ok Y) => (ws, use Y)
  | (ws, .error e) => (ws, .error e)

/-! ### expand -/

/-- A keyword value passed to `expand`: a string / plain scalar, or an
iterable collection. -/
inductive ExpandVal where
  | scalar (v : Str)
  | iterv (vs : List Str)
deriving DecidableEq, Repr

/-- `itertools.product` over lists (right-most varying fastest). -/
def pyProduct {α : Type} : List (List α) → List (List α)
  | [] => [[]]
  | l :: ls => l.flatMap (fun x => (pyProduct ls).map (fun rest => x :: rest))

/-- `expand`'s `expand_kwargs`: each key's value becomes its list of
`(key, value)` pairs. -/
def expandKwargs (kwargs : List (Str × ExpandVal)) : List (List (Str × Str)) :=
  kwargs.map (fun kv =>
    match kv.2 with
    | .scalar v => [(kv.1, v)]
    | .iterv vs => vs.map (fun v => (kv.1, v)))

/-- Run the per-combination format function over all combinations, stopping
at the first exception, accumulating warnings. -/
def mapCombos (f : List (Str × Str) → Res Str) :
    List (List (Str × Str)) → Res (List Str)
  | [] => ([], .ok [])
  | combo :: rest =>
    match f combo with
    | (ws, .ok s) =>
      (match mapCombos f rest with
       | (ws2, .ok ss) => (ws ++ ws2, .ok (s :: ss))
       | (ws2, .error e) => (ws ++ ws2, .error e))
    | (ws, .error e) => (ws, .error e)

/-- `expand(combinator, partial, **kwargs)`: combinations of the keyword
values, each rendered with `pformat` semantics (`pmode`) or full `format`
semantics. -/
def expand (X : PT) (combinator : List (List (Str × Str)) → List (List (Str × Str)))
    (pmode : Bool) (kwargs : List (Str × ExpandVal)) : Res (List Str) :=
  let fmt : List (Str × Str) → Res Str :=
    if pmode then fun combo => pformat X (dictMerge [] combo)
    else fun combo => ([], formatFull X (dictMerge [] combo))
  mapCombos fmt (combinator (expandKwargs kwargs))

/-! ### Construction and registration -/

/-- `add_alt_suffixes`: a leading `'+'` marks an appending suffix; register
a `\x7bname\x7dfile` bound method for each entry (`setattr` appends to the
registry).  An empty value raises `IndexError` at `value[0]`. -/
def addAltSuffixes (X : PT) (asx : List (Str × Str)) : Except Err PT :=
  asx.foldlM (fun Y nv =>
    match nv.2 with
    | [] => .error .indexError
    | c :: rest =>
      let app := c = '+'
      let value := if app then rest else c :: rest
      let reg := Y.registry ++ [(nv.1 ++ chars "file", .altsuffix nv.1 value app)]
      .ok { Y with registry := reg })
    X

/-- Classification of one preset's field map in `add_preset_formats`:
mixing call-specs with iterable (expand-style) values is a `ValueError`;
any iterable selects the partial-expand bound method, any call-spec the
add-to-dict-with-calls one, else plain add-to-dict. -/
def classifyPreset (fields : List (Str × PresetField)) : Except Err PresetKind :=
  let hasIter := fields.any (fun f => match f.2 with | .iter _ => true | _ => false)
  let hasCall := fields.any (fun f => match f.2 with | .call _ _ => true | _ => false)
  if hasIter then
    if hasCall then .error (.valueError (chars "Cannot use callable with expand()-style format"))
    else .ok .expandp
  else if hasCall then .ok .withcalls
  else .ok .addtodict

/-- `add_preset_formats`: classify and register each preset under its own
name.  No check that call-spec fields name existing operations happens
here. -/
def addPresetFormats (X : PT) (pf : List (Str × List (Str × PresetField))) :
    Except Err PT :=
  pf.foldlM (fun Y nf => do
    let kind ← classifyPreset nf.2
    .ok { Y with registry := Y.registry ++ [(nf.1, .preset kind nf.2)] })
    X

/-- `PathTemplater.__init__(top_directories, alt_suffixes, preset_formats)`:
default top directory `\x7b"default": ""\x7d`; a single entry is selected
immediately, several entries each register a `\x7bname\x7ddir` bound
method; then `add_alt_suffixes` and `add_preset_formats`. -/
def ptInit (tds : List (Str × Str)) (asx : List (Str × Str))
    (pf : List (Str × List (Str × PresetField))) : Except Err PT := do
  let tds' := if tds = [] then [(chars "default", [])] else tds
  let X :=
    (match tds' with
     | [nv] => { PT.blank with topdirName := some nv.1, topdirValue := some nv.2 }
     | _ =>
       let reg := tds'.map (fun nv => (nv.1 ++ chars "dir", RegEntry.topdir nv.1 nv.2))
       { PT.blank with registry := reg })
  let X ← addAltSuffixes X asx
  addPresetFormats X pf

/-! ### Dynamic dispatch: bound-method invocation

`_set_altsuffix` may invoke a registered `\x7bname\x7ddir` method; preset
shortcuts registered by `add_preset_formats` may invoke arbitrary
operations by name (`_add_to_dict_with_calls`), including other presets.
Python recursion is modelled with a fuel parameter whose exhaustion is
`RecursionError`.  Operations that return neither a `PathTemplater` nor a
list/string of paths, and call-specs with argument shapes other than plain
strings, are outside the model (`Err.unmodeled`); no claim exercises
them. -/

/-- Result of calling an operation by name: a derived instance, a list of
rendered paths (expand-style presets), or a plain string. -/
inductive CallRes where
  | inst (Y : PT)
  | strs (l : List Str)
  | pystr (s : Str)
deriving DecidableEq, Repr

/-- Lift a `Res PT` into a `Res CallRes`. -/
def mapInst (r : Res PT) : Res CallRes :=
  (r.1, r.2.map .inst)

/-- Approximate `repr` of a call-spec tuple `([args], \x7bkwargs\x7d)`. -/
def reprFuncparams (args : List Str) (kw : List (Str × Str)) : Str :=
  let rec commas : List Str → Str
    | [] => []
    | [s] => s
    | s :: rest => s ++ chars ", " ++ commas rest
  chars "([" ++ commas args ++ chars "], \x7b" ++
    commas (kw.map (fun p => p.1 ++ chars ": " ++ p.2)) ++ chars "\x7d)"

/-- The `ValueError` message of `_add_to_dict_with_calls` when a call-spec
names a function that does not exist on the object. -/
def lookupErrMsg (param : Str) (args : List Str) (kw : List (Str × Str)) : Str :=
  chars "Preset value " ++ param ++ [':'] ++ reprFuncparams args kw ++
    chars " provided but could not find function " ++ param

/-- Class methods invokable through a call-spec, with plain-string
arguments (the modelled subset; others are `Err.unmodeled`). -/
def builtinCall (X : PT) (nm : Str) (args : List Str) (kw : List (Str × Str)) :
    Res CallRes :=
  if nm = chars "new_directory" then
    (match args, kw with
     | [d], [] => ([], .ok (.inst (newDirectory X (.strv d))))
     | _, _ => ([], .error .typeError))
  else if nm = chars "new_template" then
    (match args, kw with
     | [t], [] => ([], .ok (.inst (newTemplate X t)))
     | _, _ => ([], .error .typeError))
  else if nm = chars "new_affix" then
    (match args, kw with
     | [a], [] => ([], .ok (.inst (newAffix X a)))
     | _, _ => ([], .error .typeError))
  else if nm = chars "remove_affix" then
    (match args, kw with
     | [], [] => ([], .ok (.inst (removeAffix X)))
     | _, _ => ([], .error .typeError))
  else if nm = chars "apply_affix" then
    (match args, kw with
     | [], [] => ([], .ok (.inst (applyAffix X)))
     | _, _ => ([], .error .typeError))
  else if nm = chars "new_suffix" then
    (match args, kw with
     | [s], [] => ([], .ok (.inst (newSuffix X (some s))))
     | _, _ => ([], .error .typeError))
  else if nm = chars "no_suffix" then
    (match args, kw with
     | [], [] => ([], .ok (.inst (noSuffix X)))
     | _, _ => ([], .error .typeError))
  else if nm = chars "reset_altsuffix" then
    (match args, kw with
     | [], [] => ([], .ok (.inst (resetAltsuffix X)))
     | _, _ => ([], .error .typeError))
  else if nm = chars "clear_dict" then
    (match args, kw with
     | [], [] => ([], .ok (.inst (clearDict X)))
     | _, _ => ([], .error .typeError))
  else if nm = chars "add_to_dict" then
    (match args with
     | [] => mapInst (addToDict X kw)
     | _ => ([], .error .typeError))
  else if nm = chars "use" then
    (match args, kw with
     | [], [] => ([], (use X).map .pystr)
     | _, _ => ([], .error .typeError))
  else if nm = chars "format" then
    (match args with
     | [] => ([], (formatFull X kw).map .pystr)
     | _ => ([], .error .typeError))
  else if nm = chars "pformat" then
    (match args with
     | [] => ((pformat X kw).1, (pformat X kw).2.map .pystr)
     | _ => ([], .error .typeError))
  else if nm = chars "create" then
    (match args, kw with
     | [p], [] => ([], (create X p [] []).map .inst)
     | _, _ => ([], .error .typeError))
  else if nm = chars "get_directory" then
    (match args, kw with
     | [], [] => ([], (getDirectoryAspathlib X).map (fun p => .pystr p.str))
     | _, _ => ([], .error .typeError))
  else ([], .error .unmodeled)

/-- `_add_to_dict_with_calls` body: walk the field map in insertion order;
call-spec fields resolve and invoke the named operation on the evolving
object (`ValueError` naming the field if absent), other fields are
collected and finally merged via `add_to_dict` (returning the object
unchanged when none remain). -/
def atdwcAux (call : PT → Str → List Str → List (Str × Str) → Res CallRes) :
    CallRes → List (Str × PresetField) → List (Str × Str) → Res CallRes
  | cur, [], acc =>
    if acc = [] then ([], .ok cur)
    else
      (match cur with
       | .inst Y => mapInst (addToDict Y acc)
       | _ => ([], .error .attrError))
  | cur, (p, .call a k) :: rest, acc =>
    (match cur with
     | .inst Y =>
       if getattrExists Y p then
         (match call Y p a k with
          | (ws, .ok r) =>
            (match atdwcAux call r rest acc with
             | (ws2, res) => (ws ++ ws2, res))
          | (ws, .error e) => (ws, .error e))
       else ([], .error (.valueError (lookupErrMsg p a k)))
     | _ => ([], .error .unmodeled))
  | cur, (p, .scalar v) :: rest, acc => atdwcAux call cur rest (acc ++ [(p, v)])
  | _, (_, .iter _) :: _, _ => ([], .error .unmodeled)

/-- Are all fields scalars?  (`True` for every reachable add-to-dict
preset by the classification in `add_preset_formats`.) -/
def allScalar (fields : List (Str × PresetField)) : Bool :=
  fields.all (fun f => match f.2 with | .scalar _ => true | _ => false)

/-- Scalar fields as dictionary entries. -/
def scalarsOf (fields : List (Str × PresetField)) : List (Str × Str) :=
  fields.filterMap (fun f => match f.2 with | .scalar v => some (f.1, v) | _ => none)

/-- Fields of an expand-style preset as `expand` keyword values (no
call-spec can be present for a reachable expand preset). -/
def fieldsToExpand (fields : List (Str × PresetField)) :
    Option (List (Str × ExpandVal)) :=
  fields.mapM (fun f =>
    match f.2 with
    | .scalar v => some (f.1, ExpandVal.scalar v)
    | .iter vs => some (f.1, ExpandVal.iterv vs)
    | .call _ _ => none)

/-- A pending dynamically-dispatched call. -/
inductive FCall where
  | attr (X : PT) (nm : Str) (args : List Str) (kw : List (Str × Str))
  | entry (X : PT) (e : RegEntry)
  | setAlt (X : PT) (n v : Str) (app : Bool)

/-- A call outcome together with the receiver as it stands after the call:
warnings, the receiver (`cur_obj`/`self`, which `_reset_topdir` can
mutate), and the result or exception. -/
abbrev MRes := List Str × PT × Except Err CallRes

/-- Forget the receiver component of a call outcome. -/
def dropRecv (r : MRes) : Res CallRes := (r.1, r.2.2)

/-- Is `name ++ "dir"` free of the `PathTemplater` class's own attributes?
`getattr(cur_obj, name+"dir", None)` falls back to the class when the
instance `__dict__` misses: the class has exactly two attributes ending in
`"dir"`, the mutating zero-argument method `_reset_topdir` and the
three-argument staticmethod `_set_topdir`. -/
def safeAltName (n : Str) : Bool :=
  !decide (n ++ chars "dir" = chars "_reset_topdir")
    && !decide (n ++ chars "dir" = chars "_set_topdir")

/-- An alternate-suffix registry entry whose name can hit the class
fallback is unsafe; every other entry is safe. -/
def entrySafe : RegEntry → Bool
  | .altsuffix n _ _ => safeAltName n
  | _ => true

/-- No registered alternate-suffix shortcut can hit the class fallback. -/
def regSafe (X : PT) : Bool :=
  X.registry.all (fun p => entrySafe p.2)

/-- Fueled evaluator for dynamically-dispatched calls, returning the
receiver alongside the result.

`.attr` is `getattr` + invocation; `.entry` runs a registered bound method;
`.setAlt` is `_set_altsuffix`: its first line formats the undefined
variable `suffix_name` into a warning when the alternate-suffix name is
already set, so that path raises `NameError`; otherwise, when the current
top-directory name differs from the new name, `getattr` looks up
`name ++ "dir"`: a registered bound method supplies the base copy; with
nothing registered the lookup falls back to the class, where
`_reset_topdir` is a zero-argument method that clears the receiver's
top-directory fields in place and returns `None` (so the deep copy is then
taken of the mutated receiver) and `_set_topdir` is a staticmethod whose
zero-argument call raises `TypeError`; otherwise the base is a plain deep
copy.  The alternate-suffix record is set on the base. -/
def fueled : Nat → FCall → MRes
  | 0, .attr X _ _ _ => ([], X, .error .recursionError)
  | 0, .entry X _ => ([], X, .error .recursionError)
  | 0, .setAlt X _ _ _ => ([], X, .error .recursionError)
  | f + 1, .attr X nm args kw =>
    (match regLookup X nm with
     | some e => fueled f (.entry X e)
     | none =>
       if builtinNames.contains nm then
         ((builtinCall X nm args kw).1, X, (builtinCall X nm args kw).2)
       else ([], X, .error .attrError))
  | f + 1, .entry X e =>
    (match e with
     | .topdir n v => ((setTopdir X n v).1, X, (setTopdir X n v).2.map .inst)
     | .altsuffix n v a => fueled f (.setAlt X n v a)
     | .preset .addtodict fields =>
       if allScalar fields then
         ((addToDict X (scalarsOf fields)).1, X,
          (addToDict X (scalarsOf fields)).2.map .inst)
       else ([], X, .error .unmodeled)
     | .preset .withcalls fields =>
       ((atdwcAux (fun Y n a k => dropRecv (fueled f (.attr Y n a k)))
           (.inst X) fields []).1,
        X,
        (atdwcAux (fun Y n a k => dropRecv (fueled f (.attr Y n a k)))
           (.inst X) fields []).2)
     | .preset .expandp fields =>
       (match fieldsToExpand fields with
        | some evs =>
          ((expand X pyProduct true evs).1, X,
           (expand X pyProduct true evs).2.map .strs)
        | none => ([], X, .error .unmodeled)))
  | f + 1, .setAlt X n v app =>
    if X.altsuffixName = some n then ([], X, .error .nameError)
    else if X.topdirName ≠ some n then
      (match regLookup X (n ++ chars "dir") with
       | some (.topdir n2 v2) =>
         ((setTopdir X n2 v2).1, X,
          (setTopdir X n2 v2).2.map (fun Y =>
            .inst { Y with altsuffixName := some n,
                           altsuffixValue := v,
                           altsuffixAppend := app }))
       | some e2 =>
         (match fueled f (.entry X e2) with
          | (ws, X2, .ok (.inst Y)) =>
            (ws, X2, .ok (.inst { Y with altsuffixName := some n,
                                         altsuffixValue := v,
                                         altsuffixAppend := app }))
          | (ws, X2, .ok _) => (ws, X2, .error .attrError)
          | (ws, X2, .error er) => (ws, X2, .error er))
       | none =>
         if n ++ chars "dir" = chars "_reset_topdir" then
           ([], { X with topdirName := none, topdirValue := none },
            .ok (.inst { X with topdirName := none, topdirValue := none,
                                altsuffixName := some n,
                                altsuffixValue := v,
                                altsuffixAppend := app }))
         else if n ++ chars "dir" = chars "_set_topdir" then
           ([], X, .error .typeError)
         else
           ([], X, .ok (.inst { X with altsuffixName := some n,
                                       altsuffixValue := v,
                                       altsuffixAppend := app })))
    else
      ([], X, .ok (.inst { X with altsuffixName := some n,
                                  altsuffixValue := v,
                                  altsuffixAppend := app }))

/-- The receiver a pending call starts from. -/
def fcallRecv : FCall → PT
  | .attr X _ _ _ => X
  | .entry X _ => X
  | .setAlt X _ _ _ => X

/-- A call that can never reach the mutating class fallback. -/
def fcallSafe : FCall → Bool
  | .attr X _ _ _ => regSafe X
  | .entry X e => regSafe X && entrySafe e
  | .setAlt X n _ _ => regSafe X && safeAltName n

/-- `_set_altsuffix` as a `PathTemplater`-valued operation. -/
def setAltsuffix (fuel : Nat) (X : PT) (n v : Str) (app : Bool) : Res PT :=
  match fueled fuel (.setAlt X n v app) with
  | (ws, _, .ok (.inst Y)) => (ws, .ok Y)
  | (ws, _, .ok _) => (ws, .error .unmodeled)
  | (ws, _, .error er) => (ws, .error er)

/-- Invoke the attribute `nm` on `X` with the given arguments. -/
def callAttr (fuel : Nat) (X : PT) (nm : Str) (args : List Str)
    (kw : List (Str × Str)) : Res CallRes :=
  dropRecv (fueled fuel (.attr X nm args kw))

/-- `_add_to_dict_with_calls(**fields)` on `X`. -/
def addToDictWithCalls (fuel : Nat) (X : PT)
    (fields : List (Str × PresetField)) : Res CallRes :=
  atdwcAux (fun Y n a k => dropRecv (fueled fuel (.attr Y n a k))) (.inst X) fields []

/-! ### Heap layer

The claims about mutation and aliasing are about Python's object graph:
`_format_dict` is a mutable dict.  The heap holds the dict of every live
instance in a cell; `copy.deepcopy(self)` allocates a fresh cell holding a
copy of the receiver's dict, and a derivation writes only to the fresh
cell.  An operation raising an exception may leave allocated copies behind
but never touches the receiver's cell. -/

/-- The store of placeholder-value dicts. -/
structure Heap where
  next : Nat
  cells : List (Nat × FormatDict)
deriving DecidableEq, Repr

/-- Read a cell (unallocated cells read as empty). -/
def Heap.get (h : Heap) (r : Nat) : FormatDict :=
  ((h.cells.find? (fun c => c.1 = r)).map (fun c => c.2)).getD []

/-- Allocate a fresh cell holding `d`. -/
def Heap.alloc (h : Heap) (d : FormatDict) : Heap × Nat :=
  ({ next := h.next + 1, cells := (h.next, d) :: h.cells }, h.next)

/-- Overwrite cell `r`. -/
def Heap.set (h : Heap) (r : Nat) (d : FormatDict) : Heap :=
  { h with cells := h.cells.map (fun c => if c.1 = r then (r, d) else c) }

/-- A `PathTemplater` whose `_format_dict` lives in a heap cell
(the `formatDict` field of `pt` is dead weight at this layer: every
observation goes through `HPT.load`). -/
structure HPT where
  pt : PT
  fdRef : Nat
deriving DecidableEq, Repr

/-- The instance with its placeholder dict read from the heap. -/
def HPT.load (X : HPT) (h : Heap) : PT :=
  { X.pt with formatDict := h.get X.fdRef }

/-- `use()` observed through the heap. -/
def hUse (h : Heap) (X : HPT) : Except Err Str := use (X.load h)

/-- The derivation operations of the claim, one constructor each. -/
inductive Op where
  | opNewDirectory (d : DirVal)
  | opNewTemplate (t : Str)
  | opNewAffix (a : Str)
  | opRemoveAffix
  | opApplyAffix
  | opNewSuffix (s : Option Str)
  | opNoSuffix
  | opResetAltsuffix
  | opAddToDict (kvs : List (Str × Str))
  | opClearDict
  | opSetTopdir (n v : Str)
  | opSetAltsuffix (n v : Str) (app : Bool)
  | opCreate (p a : Str) (fd : List (Str × Str))
  | opCreateFromparts (dv : DirVal) (t s a : Str) (fd : List (Str × Str))
  | opShortcut (nm : Str)

/-- Run a derivation operation on plain instance data, returning the
receiver as it stands after the call alongside the result. -/
def Op.run (fuel : Nat) (op : Op) (X : PT) : MRes :=
  match op with
  | .opNewDirectory d => ([], X, .ok (.inst (newDirectory X d)))
  | .opNewTemplate t => ([], X, .ok (.inst (newTemplate X t)))
  | .opNewAffix a => ([], X, .ok (.inst (newAffix X a)))
  | .opRemoveAffix => ([], X, .ok (.inst (removeAffix X)))
  | .opApplyAffix => ([], X, .ok (.inst (applyAffix X)))
  | .opNewSuffix s => ([], X, .ok (.inst (newSuffix X s)))
  | .opNoSuffix => ([], X, .ok (.inst (noSuffix X)))
  | .opResetAltsuffix => ([], X, .ok (.inst (resetAltsuffix X)))
  | .opAddToDict kvs => ((addToDict X kvs).1, X, (addToDict X kvs).2.map .inst)
  | .opClearDict => ([], X, .ok (.inst (clearDict X)))
  | .opSetTopdir n v => ((setTopdir X n v).1, X, (setTopdir X n v).2.map .inst)
  | .opSetAltsuffix n v a => fueled fuel (.setAlt X n v a)
  | .opCreate p a fd => ([], X, (create X p a fd).map .inst)
  | .opCreateFromparts dv t s a fd =>
    ([], X, (createFromparts X dv t s a fd).map .inst)
  | .opShortcut nm => fueled fuel (.attr X nm [] [])

/-- An operation that can never reach the mutating class fallback directly
(reaching it through a registered shortcut is excluded by `regSafe`). -/
def opSafe : Op → Bool
  | .opSetAltsuffix n _ _ => safeAltName n
  | _ => true

/-- Heap-level call result. -/
inductive HCallRes where
  | inst (Y : HPT)
  | strs (l : List Str)
  | pystr (s : Str)
deriving DecidableEq, Repr

/-- Run a derivation through the heap: deep-copy the receiver's dict into a
fresh cell, run on the copy, store the result's dict in the fresh cell.
The receiver, as it stands after the call, is returned (its dict stays in
its own cell: no modelled operation writes the receiver's dict, though
`_reset_topdir` can overwrite its scalar fields).  Exceptions are
propagated with the heap as it stands. -/
def Op.runH (fuel : Nat) (op : Op) (h : Heap) (X : HPT) :
    Heap × HPT × List Str × Except Err HCallRes :=
  let d := h.get X.fdRef
  let a := h.alloc d
  let r := Op.run fuel op { X.pt with formatDict := d }
  ((match r.2.2 with
    | .ok (.inst Y) => a.1.set a.2 Y.formatDict
    | _ => a.1),
   ⟨r.2.1, X.fdRef⟩,
   r.1,
   (match r.2.2 with
    | .ok (.inst Y) => .ok (.inst ⟨Y, a.2⟩)
    | .ok (.strs l) => .ok (.strs l)
    | .ok (.pystr s) => .ok (.pystr s)
    | .error er => .error er))

/-! ### Claim-side auxiliary definitions -/

/-- Tokens exercised by full formatting in C5: literals and plain fields. -/
def simpleTokB : Tok → Bool
  | .lit _ => true
  | .field name none none => !name.isEmpty && !(name.all Char.isDigit)
  | .field name none (some []) => !name.isEmpty && !(name.all Char.isDigit)
  | .field _ _ _ => false

/-- Does a token mention placeholder `nm`? -/
def mentionsName (nm : Str) : Tok → Bool
  | .field n _ _ => n == nm
  | .lit _ => false

/-- Claim-side path join: segments joined with `'/'`. -/
def joinSegs : List Str → Str
  | [] => []
  | [s] => s
  | s :: rest => s ++ '/' :: joinSegs rest

/-! ## Theorems -/

/-- The default-constructed instance (`PathTemplater()`): a sole `"default"`
top directory with empty value, selected immediately. -/
def defaultPT : PT :=
  { PT.blank with topdirName := some (chars "default"), topdirValue := some [] }

theorem ptInit_default : ptInit [] [] [] = .ok defaultPT := by decide

theorem Heap.get_alloc {h : Heap} {d : FormatDict} {r : Nat} (hr : r < h.next) :
    ((h.alloc d).1).get r = h.get r := by
  have hne : (h.next = r) = False := by
    simp only [eq_iff_iff, iff_false]
    exact fun he => absurd (he ▸ hr) (lt_irrefl r)
  simp [Heap.alloc, Heap.get, List.find?, hne]

theorem find?_map_set {cells : List (Nat × FormatDict)} {r s : Nat}
    {d : FormatDict} (hne : r ≠ s) :
    (cells.map (fun c => if c.1 = s then (s, d) else c)).find?
        (fun c => c.1 = r)
      = cells.find? (fun c => c.1 = r) := by
  induction cells with
  | nil => rfl
  | cons c cs ih =>
    by_cases hc : c.1 = s
    · rw [List.map_cons, if_pos hc]
      rw [List.find?_cons_of_neg, List.find?_cons_of_neg, ih]
      · simp only [decide_eq_true_eq]
        exact fun hcr => hne (hcr ▸ hc)
      · simp only [decide_eq_true_eq]
        exact fun hsr => hne hsr.symm
    · rw [List.map_cons, if_neg hc]
      by_cases hcr : c.1 = r
      · rw [List.find?_cons_of_pos, List.find?_cons_of_pos]
        · simpa using hcr
        · simpa using hcr
      · rw [List.find?_cons_of_neg, List.find?_cons_of_neg, ih]
        · simpa using hcr
        · simpa using hcr

theorem Heap.get_set_ne {h : Heap} {r s : Nat} {d : FormatDict} (hne : r ≠ s) :
    (h.set s d).get r = h.get r := by
  simp only [Heap.set, Heap.get, find?_map_set hne]

theorem regLookup_safe {X : PT} {nm : Str} {e : RegEntry}
    (hs : regSafe X = true) (he : regLookup X nm = some e) :
    entrySafe e = true := by
  unfold regLookup at he
  cases hf : (X.registry.reverse).find? (fun q => q.1 = nm) with
  | none => rw [hf] at he; exact absurd he (by simp)
  | some p =>
    rw [hf] at he
    have hpe : p.2 = e := by simpa using he
    have hmem2 : p ∈ X.registry :=
      List.mem_reverse.mp (List.mem_of_find?_eq_some hf)
    have hs' : X.registry.all (fun q => entrySafe q.2) = true := hs
    have hall := List.all_eq_true.mp hs' p hmem2
    simpa [hpe] using hall

/-- Under `fcallSafe`, evaluation never reaches the `_reset_topdir`
fallback, so the receiver comes back unchanged. -/
theorem fueled_recv (f : Nat) :
    ∀ c : FCall, fcallSafe c = true → (fueled f c).2.1 = fcallRecv c := by
  induction f with
  | zero => intro c _; cases c <;> rfl
  | succ f ih =>
    intro c hc
    cases c with
    | attr X nm args kw =>
      have hreg : regSafe X = true := hc
      show (fueled (f + 1) (.attr X nm args kw)).2.1 = X
      rw [fueled]
      cases hf : regLookup X nm with
      | some e =>
        have he : entrySafe e = true := regLookup_safe hreg hf
        simpa [fcallRecv] using
          ih (.entry X e) (by simp [fcallSafe, hreg, he])
      | none =>
        by_cases hb : nm ∈ builtinNames <;> simp [hb]
    | entry X e =>
      have hc' : regSafe X = true ∧ entrySafe e = true := by
        simpa [fcallSafe, Bool.and_eq_true] using hc
      cases e with
      | topdir n v => simp [fueled, fcallRecv]
      | altsuffix n v a =>
        have hsafe : safeAltName n = true := by
          simpa [entrySafe] using hc'.2
        show (fueled (f + 1) (.entry X (.altsuffix n v a))).2.1 = X
        rw [fueled]
        simpa [fcallRecv] using
          ih (.setAlt X n v a) (by simp [fcallSafe, hc'.1, hsafe])
      | preset k fields =>
        cases k with
        | addtodict =>
          by_cases hall : allScalar fields <;> simp [fueled, fcallRecv, hall]
        | withcalls => simp [fueled, fcallRecv]
        | expandp =>
          cases hfe : fieldsToExpand fields <;> simp [fueled, fcallRecv, hfe]
    | setAlt X n v app =>
      have hc' : regSafe X = true ∧ safeAltName n = true := by
        simpa [fcallSafe, Bool.and_eq_true] using hc
      have hns := hc'.2
      simp only [safeAltName, Bool.and_eq_true, Bool.not_eq_true',
                 decide_eq_false_iff_not] at hns
      show (fueled (f + 1) (.setAlt X n v app)).2.1 = X
      rw [fueled]
      by_cases h1 : X.altsuffixName = some n
      · simp [h1]
      · rw [if_neg h1]
        by_cases h2 : X.topdirName ≠ some n
        · rw [if_pos h2]
          cases hf : regLookup X (n ++ chars "dir") with
          | none => simp [hns.1, hns.2]
          | some e2 =>
            cases e2 with
            | topdir n2 v2 => rfl
            | altsuffix n3 v3 a3 =>
              have he : entrySafe (RegEntry.altsuffix n3 v3 a3) = true :=
                regLookup_safe hc'.1 hf
              have hr := ih (.entry X (.altsuffix n3 v3 a3))
                (by simp [fcallSafe, hc'.1, he])
              rcases hres : fueled f (.entry X (.altsuffix n3 v3 a3))
                with ⟨ws, X2, r⟩
              have hX2 : X2 = X := by
                rw [hres] at hr
                simpa [fcallRecv] using hr
              cases r with
              | ok cr => cases cr <;> simp [hres, hX2]
              | error er => simp [hres, hX2]
            | preset k fields =>
              have hr := ih (.entry X (.preset k fields))
                (by simp [fcallSafe, hc'.1, entrySafe])
              rcases hres : fueled f (.entry X (.preset k fields))
                with ⟨ws, X2, r⟩
              have hX2 : X2 = X := by
                rw [hres] at hr
                simpa [fcallRecv] using hr
              cases r with
              | ok cr => cases cr <;> simp [hres, hX2]
              | error er => simp [hres, hX2]
        · rw [if_neg h2]

theorem Op.run_recv (fuel : Nat) (op : Op) (X : PT)
    (hreg : regSafe X = true) (hop : opSafe op = true) :
    (Op.run fuel op X).2.1 = X := by
  cases op with
  | opSetAltsuffix n v a =>
    have hs : safeAltName n = true := hop
    exact fueled_recv fuel (.setAlt X n v a) (by simp [fcallSafe, hreg, hs])
  | opShortcut nm =>
    exact fueled_recv fuel (.attr X nm [] []) (by simp [fcallSafe, hreg])
  | opNewDirectory d => rfl
  | opNewTemplate t => rfl
  | opNewAffix a => rfl
  | opRemoveAffix => rfl
  | opApplyAffix => rfl
  | opNewSuffix s => rfl
  | opNoSuffix => rfl
  | opResetAltsuffix => rfl
  | opAddToDict kvs => rfl
  | opClearDict => rfl
  | opSetTopdir n v => rfl
  | opCreate p a fd => rfl
  | opCreateFromparts dv t s a fd => rfl

/-- C1 (amended: except for alternate-suffix names whose `name ++ "dir"`
lookup falls through to a class attribute — `_reset_top`/`_set_top`, the
former reaching the mutating class method `_reset_topdir`, see the
counterexample): every derivation operation (set directory, set filename
template, set/remove/apply filename affix, set/clear suffix, reset
alternate suffix, add/clear placeholder values, set top directory, set
alternate suffix, `create`, `create_fromparts`, registered shortcuts) acts
on a deep copy: the receiver's placeholder-value cell is untouched, the
receiver observed after the call is the unchanged original, what `use()`
returns for it is unchanged, the result's placeholder-value mapping lives
in a different cell than the receiver's, and on an exception the receiver
is likewise unaffected. -/
theorem C1_derivations_never_mutate (fuel : Nat) (op : Op) (h : Heap) (X : HPT)
    (hwf : X.fdRef < h.next) (hreg : regSafe X.pt = true)
    (hop : opSafe op = true) :
    (Op.runH fuel op h X).1.get X.fdRef = h.get X.fdRef
    ∧ ((Op.runH fuel op h X).2.1).load (Op.runH fuel op h X).1 = X.load h
    ∧ hUse (Op.runH fuel op h X).1 X = hUse h X
    ∧ ∀ Y : HPT, (Op.runH fuel op h X).2.2.2 = .ok (.inst Y)
        → Y.fdRef ≠ X.fdRef := by
  have hne : X.fdRef ≠ h.next := Nat.ne_of_lt hwf
  have halloc : ((h.alloc (h.get X.fdRef)).1).get X.fdRef = h.get X.fdRef :=
    Heap.get_alloc hwf
  have hget : (Op.runH fuel op h X).1.get X.fdRef = h.get X.fdRef := by
    cases hres : (Op.run fuel op { X.pt with formatDict := h.get X.fdRef }).2.2 with
    | ok cr =>
      cases cr with
      | inst Z => simpa [Op.runH, hres, Heap.alloc, Heap.get_set_ne hne] using halloc
      | strs l => simpa [Op.runH, hres] using halloc
      | pystr s => simpa [Op.runH, hres] using halloc
    | error er => simpa [Op.runH, hres] using halloc
  have hrecvPT : (Op.run fuel op { X.pt with formatDict := h.get X.fdRef }).2.1
      = { X.pt with formatDict := h.get X.fdRef } :=
    Op.run_recv fuel op _ hreg hop
  refine ⟨hget, ?_, ?_, ?_⟩
  · have hr21 : (Op.runH fuel op h X).2.1
        = ⟨(Op.run fuel op { X.pt with formatDict := h.get X.fdRef }).2.1,
           X.fdRef⟩ := rfl
    rw [hr21, hrecvPT]
    simp [HPT.load, hget]
  · simp [hUse, HPT.load, hget]
  · intro Y hok
    cases hres : (Op.run fuel op { X.pt with formatDict := h.get X.fdRef }).2.2 with
    | ok cr =>
      cases cr with
      | inst Z =>
        simp only [Op.runH, hres] at hok
        have hY : Y.fdRef = (h.alloc (h.get X.fdRef)).2 := by
          cases hok
          rfl
        simpa [hY, Heap.alloc] using hne.symm
      | strs l => simp [Op.runH, hres] at hok
      | pystr s => simp [Op.runH, hres] at hok
    | error er => simp [Op.runH, hres] at hok

/-- Witness for C1: a concrete heap, instance and operation. -/
theorem C1_witness :
    ((0 : Nat) < (1 : Nat)
      ∧ regSafe PT.blank = true
      ∧ opSafe (.opNewAffix (chars "z")) = true)
    ∧ ((Op.runH 1 (.opNewAffix (chars "z"))
          ⟨1, [(0, [(chars "a", chars "b")])]⟩ ⟨PT.blank, 0⟩).1.get 0
        = Heap.get ⟨1, [(0, [(chars "a", chars "b")])]⟩ 0
      ∧ ((Op.runH 1 (.opNewAffix (chars "z"))
            ⟨1, [(0, [(chars "a", chars "b")])]⟩ ⟨PT.blank, 0⟩).2.1).load
          (Op.runH 1 (.opNewAffix (chars "z"))
            ⟨1, [(0, [(chars "a", chars "b")])]⟩ ⟨PT.blank, 0⟩).1
        = HPT.load ⟨PT.blank, 0⟩ ⟨1, [(0, [(chars "a", chars "b")])]⟩
      ∧ hUse (Op.runH 1 (.opNewAffix (chars "z"))
            ⟨1, [(0, [(chars "a", chars "b")])]⟩ ⟨PT.blank, 0⟩).1 ⟨PT.blank, 0⟩
          = hUse ⟨1, [(0, [(chars "a", chars "b")])]⟩ ⟨PT.blank, 0⟩
      ∧ ∀ Y : HPT, (Op.runH 1 (.opNewAffix (chars "z"))
            ⟨1, [(0, [(chars "a", chars "b")])]⟩ ⟨PT.blank, 0⟩).2.2.2
              = .ok (.inst Y)
          → Y.fdRef ≠ 0) :=
  ⟨⟨by decide, by decide, by decide⟩,
   C1_derivations_never_mutate 1 (.opNewAffix (chars "z"))
     ⟨1, [(0, [(chars "a", chars "b")])]⟩ ⟨PT.blank, 0⟩
     (by decide) (by decide) (by decide)⟩

/-- Counterexample for C1 as stated: an alternate-suffix shortcut
registered under the name `_reset_top` makes `_set_altsuffix`'s
`getattr` of `"_reset_top" ++ "dir"` find the class method
`_reset_topdir`, whose call clears the receiver's top-directory fields in
place — after invoking the shortcut, `use()` on the receiver itself no
longer returns what it returned before the call. -/
theorem C1_counterexample :
    hUse ⟨1, [(0, [])]⟩
        ⟨{ defaultPT with
             directory := some (.strv (chars "d")),
             filenameTemplate := some (chars "f"),
             registry := [(chars "_reset_topfile",
               .altsuffix (chars "_reset_top") (chars ".r") false)] }, 0⟩
      = .ok (chars "d/f")
    ∧ hUse
        (Op.runH 3 (.opShortcut (chars "_reset_topfile")) ⟨1, [(0, [])]⟩
          ⟨{ defaultPT with
               directory := some (.strv (chars "d")),
               filenameTemplate := some (chars "f"),
               registry := [(chars "_reset_topfile",
                 .altsuffix (chars "_reset_top") (chars ".r") false)] }, 0⟩).1
        (Op.runH 3 (.opShortcut (chars "_reset_topfile")) ⟨1, [(0, [])]⟩
          ⟨{ defaultPT with
               directory := some (.strv (chars "d")),
               filenameTemplate := some (chars "f"),
               registry := [(chars "_reset_topfile",
                 .altsuffix (chars "_reset_top") (chars ".r") false)] }, 0⟩).2.1
      ≠ .ok (chars "d/f") := by decide

/-- C2: the source's `clear_dict` is `self.new_directory(\x7b\x7d)` — on a
concrete initialized instance with a nonempty placeholder mapping it
replaces the directory with an empty dict, leaves the placeholder-value
mapping intact, and makes a subsequent `use()` raise `TypeError`; the
claim (and the method's own docstring) requires the mapping cleared and
the directory unchanged. -/
theorem C2_clear_dict_resets_directory_not_mapping :
    clearDict
        { defaultPT with
            directory := some (.strv (chars "foo/bar")),
            filenameTemplate := some (chars "x"),
            suffix := some (chars ".y"),
            formatDict := [(chars "a", chars "1")] }
      = { defaultPT with
            directory := some .dictv,
            filenameTemplate := some (chars "x"),
            suffix := some (chars ".y"),
            formatDict := [(chars "a", chars "1")] }
    ∧ use (clearDict
        { defaultPT with
            directory := some (.strv (chars "foo/bar")),
            filenameTemplate := some (chars "x"),
            suffix := some (chars ".y"),
            formatDict := [(chars "a", chars "1")] })
      = .error .typeError := by decide

/-- C8: on an instance whose alternate-suffix name is already `"log"`,
invoking the alternate-suffix operation with `"log"` does *not* warn and
proceed — the warning line formats the undefined variable `suffix_name`
and the call raises `NameError`; setting the top directory to the name it
already holds, by contrast, does warn non-fatally and completes. -/
theorem C8_same_name_warns_topdir_but_raises_altsuffix :
    setAltsuffix 5 { PT.blank with altsuffixName := some (chars "log") }
        (chars "log") (chars ".log") false
      = ([], .error .nameError)
    ∧ setTopdir
        { PT.blank with
            topdirName := some (chars "out"),
            topdirValue := some (chars "o") }
        (chars "out") (chars "o2")
      = ([warnTopdirMsg (chars "out")],
         .ok { PT.blank with
                 topdirName := some (chars "out"),
                 topdirValue := some (chars "o2") }) := by decide

/-- C7 (amended: provided the current alternate-suffix name differs from
`name`, since otherwise the warning line raises `NameError`; and, in the
plain-copy case, provided `name ++ "dir"` misses the class's own
attributes `_reset_topdir`/`_set_topdir`, to which `getattr` falls back
when nothing is registered — for `name = "_reset_top"` that fallback call
mutates the receiver, clearing its top-directory fields in place, and the
returned copy has them cleared as well, not a plain copy): invoking the
alternate-suffix operation for `name` switches the top directory through a
registered `\x7bname\x7ddir` operation exactly when one is registered and
the current top-directory name differs from `name`, and otherwise returns
a plain copy; either way the alternate-suffix record is set. -/
theorem C7_set_altsuffix_dispatch (fuel : Nat) (X : PT) (n v v2 : Str)
    (app : Bool) (hne : X.altsuffixName ≠ some n) :
    (regLookup X (n ++ chars "dir") = some (.topdir n v2) →
      X.topdirName ≠ some n →
      setAltsuffix (fuel + 1) X n v app
        = ([], .ok { X with
                       topdirName := some n,
                       topdirValue := some v2,
                       altsuffixName := some n,
                       altsuffixValue := v,
                       altsuffixAppend := app }))
    ∧ (((regLookup X (n ++ chars "dir") = none ∧ safeAltName n = true)
         ∨ X.topdirName = some n) →
      setAltsuffix (fuel + 1) X n v app
        = ([], .ok { X with
                       altsuffixName := some n,
                       altsuffixValue := v,
                       altsuffixAppend := app }))
    ∧ (regLookup X (n ++ chars "dir") = none → X.topdirName ≠ some n →
       n = chars "_reset_top" →
       fueled (fuel + 1) (.setAlt X n v app)
         = ([], { X with topdirName := none, topdirValue := none },
            .ok (.inst { X with
                           topdirName := none,
                           topdirValue := none,
                           altsuffixName := some n,
                           altsuffixValue := v,
                           altsuffixAppend := app }))) := by
  refine ⟨?_, ?_, ?_⟩
  · intro hreg htd
    simp [setAltsuffix, fueled, hne, htd, hreg, setTopdir, Except.map]
  · intro hcase
    rcases hcase with ⟨hnone, hsafe⟩ | heq
    · simp only [safeAltName, Bool.and_eq_true, Bool.not_eq_true',
                 decide_eq_false_iff_not] at hsafe
      by_cases htd : X.topdirName = some n
      · simp [setAltsuffix, fueled, hne, htd]
      · simp [setAltsuffix, fueled, hne, htd, hnone, hsafe.1, hsafe.2]
    · simp [setAltsuffix, fueled, hne, heq]
  · intro hnone htd hn
    subst hn
    rw [fueled, if_neg hne, if_pos htd, hnone]
    rw [if_pos (by decide)]

/-- Witness for C7: the three branches at concrete instances. -/
theorem C7_witness :
    (({ PT.blank with registry := [(chars "logdir", .topdir (chars "log") (chars "logs"))] } : PT).altsuffixName ≠ some (chars "log")
    ∧ setAltsuffix 3
        { PT.blank with registry := [(chars "logdir", .topdir (chars "log") (chars "logs"))] }
        (chars "log") (chars ".log") false
      = ([], .ok { PT.blank with
                     topdirName := some (chars "log"),
                     topdirValue := some (chars "logs"),
                     altsuffixName := some (chars "log"),
                     altsuffixValue := chars ".log",
                     altsuffixAppend := false,
                     registry := [(chars "logdir", .topdir (chars "log") (chars "logs"))] }))
    ∧ setAltsuffix 3 PT.blank (chars "log") (chars ".log") false
      = ([], .ok { PT.blank with
                     altsuffixName := some (chars "log"),
                     altsuffixValue := chars ".log",
                     altsuffixAppend := false })
    ∧ fueled 3 (.setAlt PT.blank (chars "_reset_top") (chars ".r") false)
      = ([], { PT.blank with topdirName := none, topdirValue := none },
         .ok (.inst { PT.blank with
                        topdirName := none,
                        topdirValue := none,
                        altsuffixName := some (chars "_reset_top"),
                        altsuffixValue := chars ".r",
                        altsuffixAppend := false })) :=
  ⟨⟨by decide,
    (C7_set_altsuffix_dispatch 2
      { PT.blank with registry := [(chars "logdir", .topdir (chars "log") (chars "logs"))] }
      (chars "log") (chars ".log") (chars "logs") false (by decide)).1
      (by decide) (by decide)⟩,
   (C7_set_altsuffix_dispatch 2 PT.blank (chars "log") (chars ".log")
      (chars "logs") false (by decide)).2.1 (.inl ⟨by decide, by decide⟩),
   (C7_set_altsuffix_dispatch 2 PT.blank (chars "_reset_top") (chars ".r")
      [] false (by decide)).2.2 (by decide) (by decide) rfl⟩

/-- Counterexample for C7 as stated: when the receiver's alternate-suffix
name already equals the name being set, the operation raises `NameError`
instead of returning any instance at all. -/
theorem C7_counterexample :
    setAltsuffix 3 { PT.blank with altsuffixName := some (chars "log") }
        (chars "log") (chars ".log") true
      = ([], .error .nameError) := by decide

theorem atdwc_first_missing
    (call : PT → Str → List Str → List (Str × Str) → Res CallRes) (X : PT)
    (param : Str) (args : List Str) (kw : List (Str × Str))
    (post : List (Str × PresetField)) :
    ∀ (pre : List (Str × PresetField)) (acc : List (Str × Str)),
      (∀ q ∈ pre, ∃ v, q.2 = PresetField.scalar v) →
      getattrExists X param = false →
      atdwcAux call (.inst X) (pre ++ (param, .call args kw) :: post) acc
        = ([], .error (.valueError (lookupErrMsg param args kw))) := by
  intro pre
  induction pre with
  | nil =>
    intro acc hpre hmiss
    simp [atdwcAux, hmiss]
  | cons q pre ih =>
    intro acc hpre hmiss
    obtain ⟨v, hv⟩ := hpre q (by simp)
    rcases q with ⟨p, f⟩
    simp only at hv
    subst hv
    rw [List.cons_append]
    show atdwcAux call (.inst X) ((p, .scalar v) :: (pre ++ (param, .call args kw) :: post)) acc
      = ([], .error (.valueError (lookupErrMsg param args kw)))
    rw [atdwcAux]
    exact ih (acc ++ [(p, v)]) (fun q hq => hpre q (by simp [hq])) hmiss

/-- C9 (amended: provided every call-spec before the missing one succeeds —
here, the fields before it are plain scalars): registering a preset whose
field map contains call-specs (and no iterable values) succeeds with no
check of the named operations, and it is the invocation of the preset
shortcut that raises the lookup `ValueError` identifying the missing
operation name and the offending field value. -/
theorem C9_missing_operation_raises_at_invocation (X : PT) (pname : Str)
    (fields : List (Str × PresetField))
    (hcall : fields.any (fun f => match f.2 with | .call _ _ => true | _ => false))
    (hnoiter : ¬ fields.any (fun f => match f.2 with | .iter _ => true | _ => false)) :
    addPresetFormats X [(pname, fields)]
      = .ok { X with registry := X.registry ++ [(pname, .preset .withcalls fields)] }
    ∧ ∀ (fuel : Nat) (pre post : List (Str × PresetField)) (param : Str)
        (args : List Str) (kw : List (Str × Str)),
        fields = pre ++ (param, .call args kw) :: post →
        (∀ q ∈ pre, ∃ v, q.2 = PresetField.scalar v) →
        getattrExists X param = false →
        addToDictWithCalls fuel X fields
          = ([], .error (.valueError (lookupErrMsg param args kw))) := by
  have hiter : fields.any (fun f => match f.2 with | .iter _ => true | _ => false)
      = false := Bool.eq_false_iff.mpr hnoiter
  have hclass : classifyPreset fields = .ok .withcalls := by
    simp [classifyPreset, hiter, hcall]
  constructor
  · simp only [addPresetFormats, List.foldlM_cons, List.foldlM_nil, hclass,
               bind, Except.bind, pure, Except.pure]
  · intro fuel pre post param args kw hf hpre hmiss
    subst hf
    exact atdwc_first_missing _ X param args kw post pre [] hpre hmiss

/-- Witness for C9. -/
theorem C9_witness :
    ([(chars "zipfile", PresetField.call [] [])].any
        (fun f => match f.2 with | .call _ _ => true | _ => false) = true)
    ∧ (¬ [(chars "zipfile", PresetField.call [] [])].any
        (fun f => match f.2 with | .iter _ => true | _ => false))
    ∧ addPresetFormats defaultPT [(chars "will_fail", [(chars "zipfile", PresetField.call [] [])])]
      = .ok { defaultPT with
                registry := [(chars "will_fail",
                  .preset .withcalls [(chars "zipfile", PresetField.call [] [])])] }
    ∧ addToDictWithCalls 5 defaultPT [(chars "zipfile", PresetField.call [] [])]
      = ([], .error (.valueError (lookupErrMsg (chars "zipfile") [] []))) :=
  ⟨by decide, by decide,
   (C9_missing_operation_raises_at_invocation defaultPT (chars "will_fail")
      [(chars "zipfile", PresetField.call [] [])] (by decide) (by decide)).1,
   (C9_missing_operation_raises_at_invocation defaultPT (chars "will_fail")
      [(chars "zipfile", PresetField.call [] [])] (by decide) (by decide)).2
     5 [] [] (chars "zipfile") [] [] rfl (by simp) (by decide)⟩

/-- Counterexample for C9 as stated: a preset containing a call-spec for
the nonexistent `zipfile`, preceded by a call-spec for a registered
alternate-suffix shortcut invoked on an instance already carrying that
alternate-suffix name, raises `NameError` from the earlier call — not the
lookup error identifying `zipfile`. -/
theorem C9_counterexample :
    getattrExists
        { PT.blank with
            altsuffixName := some (chars "log"),
            registry := [(chars "logfile", .altsuffix (chars "log") (chars ".log") false)] }
        (chars "zipfile") = false
    ∧ addToDictWithCalls 5
        { PT.blank with
            altsuffixName := some (chars "log"),
            registry := [(chars "logfile", .altsuffix (chars "log") (chars ".log") false)] }
        [(chars "logfile", PresetField.call [] []), (chars "zipfile", PresetField.call [] [])]
      = ([], .error .nameError) := by decide

/-- C10: `no_suffix()` stores Python `None` (not the empty string) into the
suffix; rendering treats a null effective suffix exactly like an empty one
when no alternate suffix, or a replace-mode alternate suffix, is in
effect, but an append-mode alternate-suffix record makes `use()` raise
`TypeError` when concatenating `None` with the alternate value. -/
theorem C10_no_suffix_null_semantics (X : PT) :
    (noSuffix X).suffix = none
    ∧ (X.altsuffixName = none →
        use (noSuffix X) = use (newSuffix X (some [])))
    ∧ (X.altsuffixAppend = false →
        use (noSuffix X) = use (newSuffix X (some [])))
    ∧ (isInit X = true → X.altsuffixName.isSome = true →
        X.altsuffixAppend = true → use (noSuffix X) = .error .typeError) := by
  refine ⟨rfl, ?_, ?_, ?_⟩
  · intro hname
    simp [use, noSuffix, newSuffix, effSuffix, hname, combinedTemplateAffix,
          getDirectoryAspathlib, isInit, bind, Except.bind]
  · intro happ
    cases hname : X.altsuffixName with
    | none =>
      simp [use, noSuffix, newSuffix, effSuffix, hname, combinedTemplateAffix,
            getDirectoryAspathlib, isInit, bind, Except.bind]
    | some a =>
      simp [use, noSuffix, newSuffix, effSuffix, hname, happ,
            combinedTemplateAffix, getDirectoryAspathlib, isInit, bind, Except.bind]
  · intro hinit hname happ
    obtain ⟨a, ha⟩ := Option.isSome_iff_exists.mp hname
    have h3 := hinit
    simp only [isInit, Bool.and_eq_true] at h3
    obtain ⟨⟨htn, hd⟩, ht⟩ := h3
    have heff : effSuffix (noSuffix X) = Except.error Err.typeError := by
      simp [noSuffix, newSuffix, effSuffix, ha, happ]
    cases htv : X.topdirValue with
    | none =>
      have hg : getDirectoryAspathlib (noSuffix X) = .error .typeError := by
        simp [getDirectoryAspathlib, isInit, noSuffix, newSuffix, htv, htn, hd, ht]
      simp [use, hg, bind, Except.bind]
    | some tv =>
      cases hdv : X.directory with
      | none =>
        exfalso
        simp [hdv] at hd
      | some dv =>
        cases dv with
        | dictv =>
          have hg : getDirectoryAspathlib (noSuffix X) = .error .typeError := by
            simp [getDirectoryAspathlib, isInit, noSuffix, newSuffix, htv, hdv, htn, ht]
          simp [use, hg, bind, Except.bind]
        | strv s =>
          have hg : getDirectoryAspathlib (noSuffix X)
              = .ok ((parseRel tv).join (parseRel s)) := by
            simp [getDirectoryAspathlib, isInit, noSuffix, newSuffix, htv, hdv, htn, ht]
          simp [use, hg, heff, bind, Except.bind]
        | pathv p =>
          have hg : getDirectoryAspathlib (noSuffix X)
              = .ok ((parseRel tv).join p) := by
            simp [getDirectoryAspathlib, isInit, noSuffix, newSuffix, htv, hdv, htn, ht]
          simp [use, hg, heff, bind, Except.bind]

/-- Witness for C10. -/
theorem C10_witness :
    (noSuffix { defaultPT with
                  directory := some (.strv (chars "d")),
                  filenameTemplate := some (chars "f"),
                  altsuffixName := some (chars "t"),
                  altsuffixValue := chars ".t",
                  altsuffixAppend := true }).suffix = none
    ∧ use (noSuffix { defaultPT with
                        directory := some (.strv (chars "d")),
                        filenameTemplate := some (chars "f"),
                        altsuffixName := some (chars "t"),
                        altsuffixValue := chars ".t",
                        altsuffixAppend := true })
      = .error .typeError
    ∧ use (noSuffix { defaultPT with
                        directory := some (.strv (chars "d")),
                        filenameTemplate := some (chars "f") })
      = use (newSuffix { defaultPT with
                           directory := some (.strv (chars "d")),
                           filenameTemplate := some (chars "f") } (some [])) :=
  ⟨(C10_no_suffix_null_semantics _).1,
   (C10_no_suffix_null_semantics _).2.2.2 (by decide) (by decide) (by decide),
   (C10_no_suffix_null_semantics _).2.1 (by decide)⟩

theorem renderTok_full_classify (d : FormatDict) (t : Tok)
    (ht : simpleTokB t = true) :
    (∃ s, renderTok false d t = .ok s)
    ∨ ∃ n2, renderTok false d t = .error (.keyError n2) := by
  cases t with
  | lit s => exact .inl ⟨s, rfl⟩
  | field name idx spec =>
    cases idx with
    | some i => simp [simpleTokB] at ht
    | none =>
      cases spec with
      | none =>
        simp only [simpleTokB, Bool.and_eq_true] at ht
        obtain ⟨hn1, hn2⟩ := ht
        have hname1 : ¬ (name = []) := by simpa [List.isEmpty_iff] using hn1
        have hname2 : ¬ (name.all Char.isDigit = true) := by simpa using hn2
        cases hl : dictLookup d name with
        | some v => exact .inl ⟨v, by simp [renderTok, hname1, hname2, hl, strFormat]⟩
        | none => exact .inr ⟨name, by simp [renderTok, hname1, hname2, hl]⟩
      | some sp =>
        cases sp with
        | cons c cs => simp [simpleTokB] at ht
        | nil =>
          simp only [simpleTokB, Bool.and_eq_true] at ht
          obtain ⟨hn1, hn2⟩ := ht
          have hname1 : ¬ (name = []) := by simpa [List.isEmpty_iff] using hn1
          have hname2 : ¬ (name.all Char.isDigit = true) := by simpa using hn2
          cases hl : dictLookup d name with
          | some v => exact .inl ⟨v, by simp [renderTok, hname1, hname2, hl, strFormat]⟩
          | none => exact .inr ⟨name, by simp [renderTok, hname1, hname2, hl]⟩

theorem renderList_full_classify (d : FormatDict) (toks : List Tok)
    (hsimple : ∀ t ∈ toks, simpleTokB t = true) :
    (∃ r, renderList false d toks = .ok r)
    ∨ ∃ n2, renderList false d toks = .error (.keyError n2) := by
  induction toks with
  | nil => exact .inl ⟨[], rfl⟩
  | cons t ts ih =>
    have hts := ih (fun u hu => hsimple u (by simp [hu]))
    rcases renderTok_full_classify d t (hsimple t (by simp)) with ⟨s, hs⟩ | ⟨n2, hn⟩
    · rcases hts with ⟨r, hr⟩ | ⟨n2, hn⟩
      · exact .inl ⟨s :: r, by simp [renderList, hs, hr, bind, Except.bind, pure, Except.pure]⟩
      · exact .inr ⟨n2, by simp [renderList, hs, hn, bind, Except.bind]⟩
    · exact .inr ⟨n2, by simp [renderList, hn, bind, Except.bind]⟩

theorem renderList_full_missing (d : FormatDict) (nm : Str) (toks : List Tok)
    (hsimple : ∀ t ∈ toks, simpleTokB t = true)
    (hany : toks.any (mentionsName nm) = true)
    (hmiss : dictLookup d nm = none) :
    ∃ n2, renderList false d toks = .error (.keyError n2) := by
  induction toks with
  | nil => simp at hany
  | cons t ts ih =>
    have ht := hsimple t (by simp)
    cases t with
    | lit s =>
      have hany2 : ts.any (mentionsName nm) = true := by
        simpa [mentionsName] using hany
      obtain ⟨n2, hn⟩ := ih (fun u hu => hsimple u (by simp [hu])) hany2
      exact ⟨n2, by simp [renderList, renderTok, hn, bind, Except.bind]⟩
    | field name idx spec =>
      cases hl : dictLookup d name with
      | none =>
        rcases renderTok_full_classify d (.field name idx spec) ht with ⟨s, hs⟩ | ⟨n2, hn⟩
        · exfalso
          cases idx with
          | some i => simp [simpleTokB] at ht
          | none =>
            cases spec with
            | none => simp [renderTok, hl] at hs; split at hs <;> simp_all
            | some sp =>
              cases sp with
              | cons c cs => simp [simpleTokB] at ht
              | nil => simp [renderTok, hl] at hs; split at hs <;> simp_all
        · exact ⟨n2, by simp [renderList, hn, bind, Except.bind]⟩
      | some v =>
        have hne : (name == nm) = false := by
          by_cases h : name = nm
          · subst h
            rw [hl] at hmiss
            cases hmiss
          · simpa using h
        have hany2 : ts.any (mentionsName nm) = true := by
          simpa [mentionsName, hne] using hany
        obtain ⟨n2, hn⟩ := ih (fun u hu => hsimple u (by simp [hu])) hany2
        rcases renderTok_full_classify d (.field name idx spec) ht with ⟨s, hs⟩ | ⟨n3, h3⟩
        · exact ⟨n2, by simp [renderList, hs, hn, bind, Except.bind]⟩
        · exact ⟨n3, by simp [renderList, h3, bind, Except.bind]⟩

theorem mapCombos_first_error (fmt : List (Str × Str) → Res Str)
    (combos : List (List (Str × Str)))
    (hall : ∀ c ∈ combos,
      (∃ r, fmt c = ([], .ok r)) ∨ ∃ n2, fmt c = ([], .error (.keyError n2)))
    (hex : ∃ c ∈ combos, ∃ n2, fmt c = ([], .error (.keyError n2))) :
    ∃ n2, mapCombos fmt combos = ([], .error (.keyError n2)) := by
  induction combos with
  | nil => simp at hex
  | cons c cs ih =>
    rcases hall c (by simp) with ⟨r, hr⟩ | ⟨n2, hn⟩
    · have hex2 : ∃ c2 ∈ cs, ∃ n2, fmt c2 = ([], .error (.keyError n2)) := by
        rcases hex with ⟨c2, hc2mem, n2, hc2⟩
        rcases List.mem_cons.mp hc2mem with heq | hmem
        · subst heq
          rw [hr] at hc2
          simp at hc2
        · exact ⟨c2, hmem, n2, hc2⟩
      obtain ⟨n2, hn⟩ := ih (fun c2 h2 => hall c2 (by simp [h2])) hex2
      exact ⟨n2, by simp [mapCombos, hr, hn]⟩
    · exact ⟨n2, by simp [mapCombos, hn]⟩

/-- C5: on the template `"foo/bar/\x7balpha\x7d-\x7bbeta\x7d.foobar"`, full
expansion (default cartesian combinator) with `alpha=["xxx1","xxx2"]`,
`beta=["yyy1","yyy2"]` yields exactly the four substituted paths in
row-major order (`alpha` slowest, `beta` fastest); and, on any instance
whose rendered template consists of plain tokens, full expansion with some
combination leaving a mentioned placeholder without a value raises the
missing-placeholder `KeyError`. -/
theorem C5_full_expand_cartesian :
    (((ptInit [] [] []).bind (fun X =>
        create X (chars "foo/bar/\x7balpha\x7d-\x7bbeta\x7d.foobar") [] [])).bind
      (fun X => (expand X pyProduct false
        [(chars "alpha", .iterv [chars "xxx1", chars "xxx2"]),
         (chars "beta", .iterv [chars "yyy1", chars "yyy2"])]).2)
      = .ok [chars "foo/bar/xxx1-yyy1.foobar", chars "foo/bar/xxx1-yyy2.foobar",
             chars "foo/bar/xxx2-yyy1.foobar", chars "foo/bar/xxx2-yyy2.foobar"])
    ∧ ∀ (X : PT) (kwargs : List (Str × ExpandVal)) (s : Str) (toks : List Tok),
        use X = .ok s → scanToks s = .ok toks →
        (∀ t ∈ toks, simpleTokB t = true) →
        (∃ combo ∈ pyProduct (expandKwargs kwargs), ∃ nm,
            toks.any (mentionsName nm) = true
            ∧ dictLookup (dictMerge [] combo) nm = none) →
        ∃ n2, expand X pyProduct false kwargs = ([], .error (.keyError n2)) := by
  constructor
  · decide
  · intro X kwargs s toks huse hscan hsimple hex
    have hf : ∀ c : List (Str × Str),
        formatFull X (dictMerge [] c) = renderToks false (dictMerge [] c) toks := by
      intro c
      simp [formatFull, huse, pyStrFormat, hscan, bind, Except.bind]
    have classifyR : ∀ d' : FormatDict,
        (∃ r, renderToks false d' toks = .ok r)
        ∨ ∃ n2, renderToks false d' toks = .error (.keyError n2) := by
      intro d'
      rcases renderList_full_classify d' toks hsimple with ⟨r, hr⟩ | ⟨n2, hn⟩
      · exact .inl ⟨listJoin r, by simp [renderToks, hr, bind, Except.bind, pure, Except.pure]⟩
      · exact .inr ⟨n2, by simp [renderToks, hn, bind, Except.bind]⟩
    have hall : ∀ c ∈ pyProduct (expandKwargs kwargs),
        (∃ r, (fun combo => (([] : List Str), formatFull X (dictMerge [] combo))) c
            = ([], .ok r))
        ∨ ∃ n2, (fun combo => (([] : List Str), formatFull X (dictMerge [] combo))) c
            = ([], .error (.keyError n2)) := by
      intro c _
      rcases classifyR (dictMerge [] c) with ⟨r, hr⟩ | ⟨n2, hn⟩
      · exact .inl ⟨r, by simp only [hf c, hr]⟩
      · exact .inr ⟨n2, by simp only [hf c, hn]⟩
    have hex2 : ∃ c ∈ pyProduct (expandKwargs kwargs), ∃ n2,
        (fun combo => (([] : List Str), formatFull X (dictMerge [] combo))) c
          = ([], .error (.keyError n2)) := by
      rcases hex with ⟨c, hcmem, nm, hmention, hmiss⟩
      obtain ⟨n2, hn⟩ := renderList_full_missing (dictMerge [] c) nm toks hsimple hmention hmiss
      refine ⟨c, hcmem, n2, ?_⟩
      have : renderToks false (dictMerge [] c) toks = .error (.keyError n2) := by
        simp [renderToks, hn, bind, Except.bind]
      simp only [hf c, this]
    obtain ⟨n2, hres⟩ := mapCombos_first_error _ _ hall hex2
    exact ⟨n2, by simpa [expand] using hres⟩

/-- Witness for C5. -/
theorem C5_witness :
    (use { defaultPT with
             directory := some (.strv (chars "foo/bar")),
             filenameTemplate := some (chars "\x7balpha\x7d-\x7bbeta\x7d"),
             suffix := some (chars ".foobar") }
        = .ok (chars "foo/bar/\x7balpha\x7d-\x7bbeta\x7d.foobar"))
    ∧ ∃ n2,
        expand { defaultPT with
                   directory := some (.strv (chars "foo/bar")),
                   filenameTemplate := some (chars "\x7balpha\x7d-\x7bbeta\x7d"),
                   suffix := some (chars ".foobar") }
            pyProduct false [(chars "alpha", .iterv [chars "xxx1", chars "xxx2"])]
          = ([], .error (.keyError n2)) :=
  ⟨by decide,
   (C5_full_expand_cartesian).2
     { defaultPT with
         directory := some (.strv (chars "foo/bar")),
         filenameTemplate := some (chars "\x7balpha\x7d-\x7bbeta\x7d"),
         suffix := some (chars ".foobar") }
     [(chars "alpha", .iterv [chars "xxx1", chars "xxx2"])]
     (chars "foo/bar/\x7balpha\x7d-\x7bbeta\x7d.foobar")
     [Tok.lit ['f'], Tok.lit ['o'], Tok.lit ['o'], Tok.lit ['/'], Tok.lit ['b'],
      Tok.lit ['a'], Tok.lit ['r'], Tok.lit ['/'],
      Tok.field (chars "alpha") none none, Tok.lit ['-'],
      Tok.field (chars "beta") none none, Tok.lit ['.'], Tok.lit ['f'],
      Tok.lit ['o'], Tok.lit ['o'], Tok.lit ['b'], Tok.lit ['a'], Tok.lit ['r']]
     (by decide) (by decide) (by decide)
     ⟨[(chars "alpha", chars "xxx1")], by decide, chars "beta", by decide, by decide⟩⟩

/-! ### String and path lemmas for the round-trip and suffix claims -/

theorem splitSlash_no_slash {s : Str} (hs : ∀ c ∈ s, ¬ c = '/') :
    splitSlash s = [s] := by
  induction s with
  | nil => rfl
  | cons c cs ih =>
    have hc : ¬ c = '/' := hs c (by simp)
    rw [splitSlash, if_neg hc, ih (fun x hx => hs x (by simp [hx]))]

theorem splitSlash_append {s t : Str} (hs : ∀ c ∈ s, ¬ c = '/') :
    splitSlash (s ++ '/' :: t) = s :: splitSlash t := by
  induction s with
  | nil => simp [splitSlash]
  | cons c cs ih =>
    have hc : ¬ c = '/' := hs c (by simp)
    rw [List.cons_append, splitSlash, if_neg hc,
        ih (fun x hx => hs x (by simp [hx]))]

theorem joinSegs_cons_cons (s : Str) (t : Str) (rest : List Str) :
    joinSegs (s :: t :: rest) = s ++ '/' :: joinSegs (t :: rest) := rfl

theorem splitSlash_joinSegs {segs : List Str} (hne : segs ≠ [])
    (hs : ∀ seg ∈ segs, ∀ c ∈ seg, ¬ c = '/') :
    splitSlash (joinSegs segs) = segs := by
  induction segs with
  | nil => exact absurd rfl hne
  | cons s rest ih =>
    cases rest with
    | nil => exact splitSlash_no_slash (hs s (by simp))
    | cons t rest2 =>
      rw [joinSegs_cons_cons, splitSlash_append (hs s (by simp)),
          ih (by simp) (fun seg hseg => hs seg (by simp [hseg]))]

theorem mem_joinSegs {segs : List Str} {c : Char} (hc : c ∈ joinSegs segs) :
    c = '/' ∨ ∃ seg ∈ segs, c ∈ seg := by
  induction segs with
  | nil => simp [joinSegs] at hc
  | cons s rest ih =>
    cases rest with
    | nil =>
      right
      exact ⟨s, by simp, hc⟩
    | cons t rest2 =>
      rw [joinSegs_cons_cons] at hc
      rcases List.mem_append.mp hc with h1 | h2
      · right
        exact ⟨s, by simp, h1⟩
      · rcases List.mem_cons.mp h2 with h3 | h4
        · exact .inl h3
        · rcases ih h4 with h5 | ⟨seg, hseg, hcseg⟩
          · exact .inl h5
          · exact .inr ⟨seg, by simp [hseg], hcseg⟩

theorem joinSegs_head_mem {s : Str} {rest : List Str} {c : Char}
    (hhd : (joinSegs (s :: rest)).head? = some c) : s = [] ∨ c ∈ s := by
  cases s with
  | nil => exact .inl rfl
  | cons c0 cs =>
    right
    cases rest with
    | nil =>
      simp [joinSegs] at hhd
      simp [hhd]
    | cons t rest2 =>
      rw [joinSegs_cons_cons] at hhd
      simp at hhd
      simp [hhd]

theorem parseRel_joinSegs {segs : List Str} (hne : segs ≠ [])
    (hseg : ∀ seg ∈ segs, seg ≠ [] ∧ seg ≠ ['.'] ∧ ∀ c ∈ seg, ¬ c = '/') :
    parseRel (joinSegs segs) = ⟨false, segs⟩ := by
  have hsplit : splitSlash (joinSegs segs) = segs :=
    splitSlash_joinSegs hne (fun seg h => (hseg seg h).2.2)
  have hroot : ((joinSegs segs).head? = some '/') = False := by
    simp only [eq_iff_iff, iff_false]
    intro hhd
    cases segs with
    | nil => exact hne rfl
    | cons s rest =>
      rcases joinSegs_head_mem hhd with h | h
      · exact (hseg s (by simp)).1 h
      · exact (hseg s (by simp)).2.2 '/' h rfl
  simp only [parseRel, hsplit, hroot, decide_False]
  congr 1
  apply List.filter_eq_self.mpr
  intro seg hmem
  have h := hseg seg hmem
  simp [h.1, h.2.1]

theorem joinSegs_glue (s u : Str) (t2 : List Str) :
    joinSegs ((s ++ '/' :: u) :: t2) = s ++ '/' :: joinSegs (u :: t2) := by
  cases t2 with
  | nil => rfl
  | cons v t3 =>
    rw [joinSegs_cons_cons, joinSegs_cons_cons]
    simp [List.append_assoc]

theorem foldl_joinSegs (t : List Str) :
    ∀ s, t.foldl (fun acc seg => acc ++ '/' :: seg) s = joinSegs (s :: t) := by
  induction t with
  | nil => intro s; rfl
  | cons u t2 ih =>
    intro s
    rw [List.foldl_cons, ih (s ++ '/' :: u), joinSegs_glue, joinSegs_cons_cons]

theorem str_parts {segs : List Str} (hne : segs ≠ []) (root : Bool) :
    PyPath.str ⟨root, segs⟩ = (if root then ['/'] else []) ++ joinSegs segs := by
  cases segs with
  | nil => exact absurd rfl hne
  | cons s rest =>
    simp only [PyPath.str]
    rw [foldl_joinSegs rest s]

theorem splitDot_no_dot {s : Str} (hs : ∀ c ∈ s, ¬ c = '.') :
    splitDot s = [s] := by
  induction s with
  | nil => rfl
  | cons c cs ih =>
    have hc : ¬ c = '.' := hs c (by simp)
    rw [splitDot, if_neg hc, ih (fun x hx => hs x (by simp [hx]))]

theorem splitDot_ne_nil (s : Str) : splitDot s ≠ [] := by
  cases s with
  | nil => simp [splitDot]
  | cons c cs =>
    simp only [splitDot]
    split
    · simp
    · split <;> simp

theorem splitDot_join (s : Str) :
    listJoin ((splitDot s).map (fun q => '.' :: q)) = '.' :: s := by
  induction s with
  | nil => rfl
  | cons c cs ih =>
    by_cases hc : c = '.'
    · subst hc
      rw [splitDot, if_pos rfl]
      simpa [listJoin] using ih
    · rw [splitDot, if_neg hc]
      cases hsd : splitDot cs with
      | nil => exact absurd hsd (splitDot_ne_nil cs)
      | cons h t =>
        rw [hsd] at ih
        have ih2 : h ++ listJoin (t.map (fun q => '.' :: q)) = cs := by
          simpa [listJoin] using ih
        simp [listJoin, ih2]

theorem splitDot_parts_no_dot {s : Str} :
    ∀ p ∈ splitDot s, ∀ c ∈ p, ¬ c = '.' := by
  induction s with
  | nil =>
    intro p hp
    simp [splitDot] at hp
    subst hp
    simp
  | cons c cs ih =>
    intro p hp
    by_cases hc : c = '.'
    · subst hc
      rw [splitDot, if_pos rfl] at hp
      rcases List.mem_cons.mp hp with h1 | h2
      · subst h1; simp
      · exact ih p h2
    · rw [splitDot, if_neg hc] at hp
      cases hsd : splitDot cs with
      | nil => exact absurd hsd (splitDot_ne_nil cs)
      | cons h t =>
        rw [hsd] at hp
        rcases List.mem_cons.mp hp with h1 | h2
        · subst h1
          intro x hx
          rcases List.mem_cons.mp hx with h3 | h4
          · subst h3; exact hc
          · exact ih h (by rw [hsd]; simp) x h4
        · exact ih p (by rw [hsd]; simp [h2])

theorem dropWhile_append_all {p : Char → Bool} {a b : Str}
    (ha : ∀ c ∈ a, p c = true) :
    List.dropWhile p (a ++ b) = List.dropWhile p b := by
  induction a with
  | nil => rfl
  | cons c cs ih =>
    rw [List.cons_append, List.dropWhile_cons_of_pos (ha c (by simp))]
    exact ih (fun x hx => ha x (by simp [hx]))

theorem dropWhile_head_not {p : Char → Bool} {l : Str} {c : Char}
    (h : (List.dropWhile p l).head? = some c) : p c = false := by
  induction l with
  | nil => simp [List.dropWhile] at h
  | cons c0 cs ih =>
    by_cases hp : p c0 = true
    · rw [List.dropWhile_cons_of_pos hp] at h
      exact ih h
    · rw [List.dropWhile_cons_of_neg hp] at h
      simp at h
      subst h
      exact Bool.eq_false_iff.mpr hp

theorem findDotIdx_none {s : Str} (hs : ∀ c ∈ s, ¬ c = '.') :
    findDotIdx s = none := by
  induction s with
  | nil => rfl
  | cons c cs ih =>
    rw [findDotIdx, if_neg (hs c (by simp)), ih (fun x hx => hs x (by simp [hx]))]
    rfl

theorem findDotIdx_append {a b : Str} (ha : ∀ c ∈ a, ¬ c = '.') :
    findDotIdx (a ++ b) = (findDotIdx b).map (fun j => j + a.length) := by
  induction a with
  | nil =>
    cases hb : findDotIdx b <;> simp [hb]
  | cons c cs ih =>
    rw [List.cons_append, findDotIdx, if_neg (ha c (by simp)),
        ih (fun x hx => ha x (by simp [hx]))]
    cases hb : findDotIdx b <;> simp [hb]
    omega

/-- Decomposition of a name with a nonempty dotted-extension chain:
leading dots, a nonempty dot-free stem core, then the chain, which begins
with a dot and is not a sole dot. -/
theorem chain_decomp (nm : Str) (hch : listJoin (nameSuffixes nm) ≠ []) :
    ∃ h2 : Str, h2 ≠ [] ∧ (∀ c ∈ h2, ¬ c = '.')
    ∧ nm.takeWhile (fun c => c = '.') ++ h2 ++ listJoin (nameSuffixes nm) = nm
    ∧ (listJoin (nameSuffixes nm)).head? = some '.'
    ∧ listJoin (nameSuffixes nm) ≠ ['.'] := by
  by_cases hlast : nm.getLast? = some '.'
  · exact absurd (by simp [nameSuffixes, hlast, listJoin]) hch
  · have hns : nameSuffixes nm
        = ((splitDot (nm.dropWhile (fun c => c = '.'))).tail).map (fun q => '.' :: q) := by
      simp [nameSuffixes, hlast]
    cases hsd : splitDot (nm.dropWhile (fun c => c = '.')) with
    | nil => exact absurd hsd (splitDot_ne_nil _)
    | cons h t =>
      have hJ := splitDot_join (nm.dropWhile (fun c => c = '.'))
      rw [hsd] at hJ
      have hcore_eq : h ++ listJoin (t.map (fun q => '.' :: q))
          = nm.dropWhile (fun c => c = '.') := by
        simpa [listJoin] using hJ
      have hchain : listJoin (nameSuffixes nm)
          = listJoin (t.map (fun q => '.' :: q)) := by
        rw [hns, hsd]
        rfl
      cases t with
      | nil => exact absurd (by rw [hchain]; rfl) hch
      | cons q t2 =>
        have hhead : (listJoin (nameSuffixes nm)).head? = some '.' := by
          rw [hchain]
          simp [listJoin]
        have hnodot : ∀ c ∈ h, ¬ c = '.' :=
          splitDot_parts_no_dot h (by rw [hsd]; simp)
        have hne2 : h ≠ [] := by
          intro h0
          subst h0
          have : (nm.dropWhile (fun c => c = '.')).head? = some '.' := by
            rw [← hcore_eq]
            simpa [listJoin] using congrArg List.head? hchain.symm ▸ hhead
          have := dropWhile_head_not this
          simp at this
        refine ⟨h, hne2, hnodot, ?_, hhead, ?_⟩
        · rw [hchain, List.append_assoc, hcore_eq]
          exact List.takeWhile_append_dropWhile _ _
        · intro hdot1
          apply hlast
          have heq : nm.takeWhile (fun c => c = '.') ++ h ++ listJoin (nameSuffixes nm) = nm := by
            rw [hchain, List.append_assoc, hcore_eq]
            exact List.takeWhile_append_dropWhile _ _
          rw [← heq, hdot1]
          rw [List.getLast?_append_of_ne_nil _ (by simp)]
          rfl

theorem nameSuffixes_stem (dots h2 : Str) (hd : ∀ c ∈ dots, c = '.')
    (hne : h2 ≠ []) (hnd : ∀ c ∈ h2, ¬ c = '.') :
    nameSuffixes (dots ++ h2) = [] := by
  have hlast : (dots ++ h2).getLast? = h2.getLast? :=
    List.getLast?_append_of_ne_nil dots hne
  have hlne : ¬ ((dots ++ h2).getLast? = some '.') := by
    rw [hlast, List.getLast?_eq_getLast h2 hne]
    intro hcontra
    simp only [Option.some.injEq] at hcontra
    exact hnd _ (List.getLast_mem hne) hcontra
  have hdw : List.dropWhile (fun c => decide (c = '.')) (dots ++ h2) = h2 := by
    rw [dropWhile_append_all (fun c hc => by simp [hd c hc])]
    cases h2 with
    | nil => exact absurd rfl hne
    | cons c cs =>
      exact List.dropWhile_cons_of_neg (by simp [hnd c (by simp)])
  rw [nameSuffixes, if_neg hlne]
  show ((splitDot (List.dropWhile (fun c => decide (c = '.')) (dots ++ h2))).tail).map _ = []
  rw [hdw, splitDot_no_dot hnd]
  rfl

theorem nameSuffix_stem (dots h2 : Str) (hdlen : dots = [] ∨ dots = ['.'])
    (hne : h2 ≠ []) (hnd : ∀ c ∈ h2, ¬ c = '.') :
    nameSuffix (dots ++ h2) = [] := by
  have hrev : ∀ c ∈ h2.reverse, ¬ c = '.' := fun c hc => hnd c (List.mem_reverse.mp hc)
  rcases hdlen with h0 | h1
  · subst h0
    simp only [List.nil_append]
    simp [nameSuffix, rfindDot, findDotIdx_none hrev]
  · subst h1
    simp only [nameSuffix, rfindDot, List.reverse_append, List.reverse_cons,
               List.reverse_nil, List.nil_append]
    rw [findDotIdx_append hrev]
    simp [findDotIdx, Nat.sub_self]

theorem scanAux_no_brace {s : Str} (hs : ∀ c ∈ s, ¬ c = '{' ∧ ¬ c = '}') :
    scanAux s .lit = .ok (s.map (fun c => Tok.lit [c])) := by
  induction s with
  | nil => rfl
  | cons c cs ih =>
    have hc := hs c (by simp)
    rw [scanAux, if_neg hc.1, if_neg hc.2,
        ih (fun x hx => hs x (by simp [hx]))]
    rfl

theorem renderList_lits (pmode : Bool) (d : FormatDict) (s : Str) :
    renderList pmode d (s.map (fun c => Tok.lit [c])) = .ok (s.map (fun c => [c])) := by
  induction s with
  | nil => rfl
  | cons c cs ih =>
    rw [List.map_cons, renderList]
    show (do
      let p ← renderTok pmode d (Tok.lit [c])
      let rest ← renderList pmode d (cs.map (fun c => Tok.lit [c]))
      Except.ok (p :: rest)) = _
    rw [ih]
    rfl

theorem listJoin_singletons (s : Str) :
    listJoin (s.map (fun c => [c])) = s := by
  induction s with
  | nil => rfl
  | cons c cs ih => simp [listJoin, ih]

theorem vformatPartial_no_brace (d : FormatDict) {s : Str}
    (hs : ∀ c ∈ s, ¬ c = '{' ∧ ¬ c = '}') :
    vformatPartial d s = .ok s := by
  rw [vformatPartial]
  show (do
    let toks ← scanToks s
    renderToks true d toks) = _
  rw [scanToks, scanAux_no_brace hs]
  show renderToks true d (s.map (fun c => Tok.lit [c])) = _
  rw [renderToks]
  show (do
    let pieces ← renderList true d (s.map (fun c => Tok.lit [c]))
    Except.ok (listJoin pieces)) = _
  rw [renderList_lits]
  show Except.ok (listJoin (s.map (fun c => [c]))) = _
  rw [listJoin_singletons]

theorem parseRel_single {s : Str} (h1 : s ≠ []) (h2 : s ≠ ['.'])
    (h3 : ∀ c ∈ s, ¬ c = '/') : parseRel s = ⟨false, [s]⟩ := by
  have hroot : (s.head? = some '/') = False := by
    simp only [eq_iff_iff, iff_false]
    cases s with
    | nil => simp
    | cons c cs =>
      simp only [List.head?_cons, Option.some.injEq]
      exact h3 c (by simp)
  simp [parseRel, splitSlash_no_slash h3, hroot, h1, h2]

theorem parseRel_nil : parseRel [] = ⟨false, []⟩ := by decide

theorem join_parts (r : Bool) (a b : List Str) :
    PyPath.join ⟨r, a⟩ ⟨false, b⟩ = ⟨r, a ++ b⟩ := rfl

theorem suffixes_concat (root : Bool) (ds : List Str) (nm0 : Str) :
    PyPath.suffixes ⟨root, ds ++ [nm0]⟩ = nameSuffixes nm0 := by
  simp [PyPath.suffixes, PyPath.name, List.getLast?_concat]

theorem withSuffix_concat (root : Bool) (ds : List Str) (nm0 suf : Str)
    (hsl : ∀ c ∈ suf, ¬ c = '/')
    (hdot : suf.head? = some '.') (hnotdot : suf ≠ ['.']) :
    PyPath.withSuffix ⟨root, ds ++ [nm0]⟩ suf
      = .ok ⟨root, ds ++ [(if nameSuffix nm0 = [] then nm0
            else nm0.take (nm0.length - (nameSuffix nm0).length)) ++ suf]⟩ := by
  have hany : (suf.any (fun c => c = '/')) = false := by
    apply Bool.eq_false_iff.mpr
    intro hx
    obtain ⟨c, hc, hcp⟩ := List.any_eq_true.mp hx
    exact hsl c hc (by simpa using hcp)
  have hcond2 : ((suf ≠ [] ∧ suf.head? ≠ some '.') ∨ suf = ['.']) = False := by
    simp only [eq_iff_iff, iff_false]
    rintro (⟨_, hh⟩ | hd)
    · exact hh hdot
    · exact hnotdot hd
  simp only [PyPath.withSuffix, hany, Bool.false_eq_true, if_false, hcond2,
             List.getLast?_concat, List.dropLast_concat]

theorem dictMerge_nil_nil : dictMerge [] [] = [] := rfl

/-- C4 (amended: for path strings that are `'/'`-joins of nonempty
segments, none `"."`, containing no braces, whose final segment does not
begin with two dots and whose dotted-extension chain occurs in it only as
its trailing occurrence): on a default-constructed instance,
`create(path)` followed by `use()` returns the original path. -/
theorem C4_create_use_roundtrip (segs : List Str)
    (hne : segs ≠ [])
    (hseg : ∀ seg ∈ segs, seg ≠ [] ∧ seg ≠ ['.'] ∧
      ∀ c ∈ seg, ¬ c = '/' ∧ ¬ c = '{' ∧ ¬ c = '}')
    (hdots : ¬ (['.', '.'] : Str) <+: segs.getLast hne)
    (hrep : pyReplace (segs.getLast hne) (listJoin (nameSuffixes (segs.getLast hne))) []
              ++ listJoin (nameSuffixes (segs.getLast hne)) = segs.getLast hne) :
    ((ptInit [] [] []).bind (fun X => create X (joinSegs segs) [] [])).bind use
      = .ok (joinSegs segs) := by
  have hnmmem : segs.getLast hne ∈ segs := List.getLast_mem hne
  set nm := segs.getLast hne with hnm
  set chain := listJoin (nameSuffixes nm) with hchaindef
  set stem := pyReplace nm chain [] with hstemdef
  have hparse : parseRel (joinSegs segs) = ⟨false, segs⟩ :=
    parseRel_joinSegs hne (fun seg h =>
      ⟨(hseg seg h).1, (hseg seg h).2.1, fun c hc => ((hseg seg h).2.2 c hc).1⟩)
  have hname : PyPath.name ⟨false, segs⟩ = nm := by
    simp [PyPath.name, List.getLast?_eq_getLast segs hne, hnm]
  have hcreate : create defaultPT (joinSegs segs) [] []
      = .ok { defaultPT with
                directory := some (.pathv ⟨false, segs.dropLast⟩),
                filenameTemplate := some stem,
                suffix := some chain,
                filenameAffix := [],
                formatDict := [] } := by
    rw [create, if_neg (by simp [defaultPT, PT.blank, isInit])]
    rw [hparse]
    rw [createFromparts, if_neg (by simp [defaultPT, PT.blank, isInit])]
    simp only [PyPath.suffixes, PyPath.parent, hname, dictMerge_nil_nil]
    rfl
  set X1 : PT := { defaultPT with
                     directory := some (.pathv ⟨false, segs.dropLast⟩),
                     filenameTemplate := some stem,
                     suffix := some chain,
                     filenameAffix := [],
                     formatDict := [] } with hX1
  rw [ptInit_default]
  show (create defaultPT (joinSegs segs) [] []).bind use = .ok (joinSegs segs)
  rw [hcreate]
  show use X1 = .ok (joinSegs segs)
  have hg : getDirectoryAspathlib X1 = .ok ⟨false, segs.dropLast⟩ := by
    rw [getDirectoryAspathlib, if_neg (by simp [hX1, defaultPT, PT.blank, isInit])]
    show (match X1.topdirValue with
          | none => Except.error Err.typeError
          | some tv =>
            match X1.directory with
            | some (DirVal.strv s) => Except.ok ((parseRel tv).join (parseRel s))
            | some (DirVal.pathv p) => Except.ok ((parseRel tv).join p)
            | some DirVal.dictv => Except.error Err.typeError
            | none => Except.error (Err.valueError (chars "Cannot use() PathTemplater - not fully initialized")))
      = Except.ok ⟨false, segs.dropLast⟩
    show Except.ok ((parseRel []).join ⟨false, segs.dropLast⟩) = _
    rw [parseRel_nil, join_parts]
    simp
  have hcta : combinedTemplateAffix X1 = stem := by
    simp [combinedTemplateAffix, hX1, defaultPT, PT.blank]
  have heff : effSuffix X1 = .ok (some chain) := by
    simp [effSuffix, hX1, defaultPT, PT.blank]
  have hstr : PyPath.str ⟨false, segs⟩ = joinSegs segs := by
    rw [str_parts hne false]
    simp
  have hvf : vformatPartial [] (joinSegs segs) = .ok (joinSegs segs) := by
    apply vformatPartial_no_brace
    intro c hc
    rcases mem_joinSegs hc with h | ⟨seg, hsm, hcm⟩
    · subst h
      exact ⟨by decide, by decide⟩
    · exact ⟨((hseg seg hsm).2.2 c hcm).2.1, ((hseg seg hsm).2.2 c hcm).2.2⟩
  by_cases hch : chain = []
  · have hstemnm : stem = nm := by
      have h := hrep
      rw [hch, List.append_nil] at h
      exact h
    have hfinal : segs.dropLast ++ [stem] = segs := by
      rw [hstemnm, hnm]
      exact List.dropLast_append_getLast hne
    rw [use]
    show (do
      let dirP ← getDirectoryAspathlib X1
      let p1 := dirP.join (parseRel (combinedTemplateAffix X1))
      let sfx ← effSuffix X1
      let p2 ← (match sfx with
        | some s =>
          if s ≠ [] then p1.withSuffix (listJoin p1.suffixes ++ s) else .ok p1
        | none => .ok p1)
      vformatPartial X1.formatDict p2.str) = .ok (joinSegs segs)
    rw [hg, hcta, heff]
    show (do
      let p2 ← (match some chain with
        | some s =>
          if s ≠ [] then
            (PyPath.join ⟨false, segs.dropLast⟩ (parseRel stem)).withSuffix
              (listJoin (PyPath.join ⟨false, segs.dropLast⟩ (parseRel stem)).suffixes ++ s)
          else .ok (PyPath.join ⟨false, segs.dropLast⟩ (parseRel stem))
        | none => .ok (PyPath.join ⟨false, segs.dropLast⟩ (parseRel stem)))
      vformatPartial X1.formatDict p2.str) = .ok (joinSegs segs)
    rw [hch]
    show vformatPartial X1.formatDict
        (PyPath.join ⟨false, segs.dropLast⟩ (parseRel stem)).str = .ok (joinSegs segs)
    have hstemne : stem ≠ [] := by
      rw [hstemnm]
      exact (hseg nm hnmmem).1
    have hstemdot2 : stem ≠ ['.'] := by
      rw [hstemnm]
      exact (hseg nm hnmmem).2.1
    have hstemslash : ∀ c ∈ stem, ¬ c = '/' := by
      intro c hc
      rw [hstemnm] at hc
      exact ((hseg nm hnmmem).2.2 c hc).1
    rw [parseRel_single hstemne hstemdot2 hstemslash, join_parts, hfinal, hstr]
    show vformatPartial [] (joinSegs segs) = .ok (joinSegs segs)
    exact hvf
  · obtain ⟨h2, hh2ne, hh2nd, hdecomp, hchead, hchdot⟩ := chain_decomp nm hch
    rw [← hchaindef] at hdecomp hchead hchdot
    have hdotsall : ∀ c ∈ nm.takeWhile (fun c => c = '.'), c = '.' := by
      intro c hc
      simpa using List.mem_takeWhile_imp hc
    have hstem_eq : stem = nm.takeWhile (fun c => c = '.') ++ h2 := by
      have hboth : stem ++ chain = (nm.takeWhile (fun c => c = '.') ++ h2) ++ chain := by
        rw [hrep, hdecomp]
      exact List.append_cancel_right hboth
    have hdots2 : nm.takeWhile (fun c => c = '.') = []
        ∨ nm.takeWhile (fun c => c = '.') = ['.'] := by
      cases hd : nm.takeWhile (fun c => c = '.') with
      | nil => exact .inl rfl
      | cons c1 rest =>
        have hc1 : c1 = '.' := hdotsall c1 (by rw [hd]; simp)
        cases rest with
        | nil =>
          right
          rw [hc1]
        | cons c2 rest2 =>
          exfalso
          have hc2 : c2 = '.' := hdotsall c2 (by rw [hd]; simp)
          apply hdots
          have hpre1 : (['.', '.'] : Str) <+: nm.takeWhile (fun c => c = '.') := by
            rw [hd, hc1, hc2]
            exact ⟨rest2, rfl⟩
          exact hpre1.trans (List.takeWhile_prefix _)
    have hstemne : stem ≠ [] := by
      rw [hstem_eq]
      intro h0
      exact hh2ne (List.append_eq_nil.mp h0).2
    have hstemdot2 : stem ≠ ['.'] := by
      rw [hstem_eq]
      intro h0
      rcases hdots2 with hd | hd
      · rw [hd, List.nil_append] at h0
        exact hh2nd '.' (by rw [h0]; simp) rfl
      · rw [hd] at h0
        have h2nil : h2 = [] := by simpa using h0
        exact hh2ne h2nil
    have hmemnm : ∀ c ∈ stem, c ∈ nm := by
      intro c hc
      rw [← hrep]
      exact List.mem_append_left _ hc
    have hstemslash : ∀ c ∈ stem, ¬ c = '/' := fun c hc =>
      ((hseg nm hnmmem).2.2 c (hmemnm c hc)).1
    have hsfx1 : nameSuffixes stem = [] := by
      rw [hstem_eq]
      exact nameSuffixes_stem _ _ hdotsall hh2ne hh2nd
    have hnsfx : nameSuffix stem = [] := by
      rw [hstem_eq]
      exact nameSuffix_stem _ _ hdots2 hh2ne hh2nd
    have hchslash : ∀ c ∈ chain, ¬ c = '/' := by
      intro c hc
      have : c ∈ nm := by
        rw [← hrep]
        exact List.mem_append_right _ hc
      exact ((hseg nm hnmmem).2.2 c this).1
    have hfinal : segs.dropLast ++ [nm] = segs := by
      rw [hnm]
      exact List.dropLast_append_getLast hne
    rw [use]
    show (do
      let dirP ← getDirectoryAspathlib X1
      let p1 := dirP.join (parseRel (combinedTemplateAffix X1))
      let sfx ← effSuffix X1
      let p2 ← (match sfx with
        | some s =>
          if s ≠ [] then p1.withSuffix (listJoin p1.suffixes ++ s) else .ok p1
        | none => .ok p1)
      vformatPartial X1.formatDict p2.str) = .ok (joinSegs segs)
    rw [hg, hcta, heff]
    show (do
      let p2 ← (match some chain with
        | some s =>
          if s ≠ [] then
            (PyPath.join ⟨false, segs.dropLast⟩ (parseRel stem)).withSuffix
              (listJoin (PyPath.join ⟨false, segs.dropLast⟩ (parseRel stem)).suffixes ++ s)
          else .ok (PyPath.join ⟨false, segs.dropLast⟩ (parseRel stem))
        | none => .ok (PyPath.join ⟨false, segs.dropLast⟩ (parseRel stem)))
      vformatPartial X1.formatDict p2.str) = .ok (joinSegs segs)
    show (do
      let p2 ← (if chain ≠ [] then
            (PyPath.join ⟨false, segs.dropLast⟩ (parseRel stem)).withSuffix
              (listJoin (PyPath.join ⟨false, segs.dropLast⟩ (parseRel stem)).suffixes ++ chain)
          else .ok (PyPath.join ⟨false, segs.dropLast⟩ (parseRel stem)))
      vformatPartial X1.formatDict p2.str) = .ok (joinSegs segs)
    rw [if_pos hch, parseRel_single hstemne hstemdot2 hstemslash, join_parts]
    have hws : PyPath.withSuffix ⟨false, segs.dropLast ++ [stem]⟩
        (listJoin (PyPath.suffixes ⟨false, segs.dropLast ++ [stem]⟩) ++ chain)
        = .ok ⟨false, segs.dropLast ++ [nm]⟩ := by
      rw [suffixes_concat, hsfx1]
      show PyPath.withSuffix ⟨false, segs.dropLast ++ [stem]⟩ (listJoin [] ++ chain) = _
      rw [show listJoin [] ++ chain = chain from by simp [listJoin]]
      rw [withSuffix_concat false segs.dropLast stem chain hchslash hchead hchdot]
      rw [hnsfx, if_pos rfl, hrep]
    rw [hws]
    show vformatPartial X1.formatDict (PyPath.str ⟨false, segs.dropLast ++ [nm]⟩)
      = .ok (joinSegs segs)
    rw [hfinal, hstr]
    exact hvf

/-- Witness for C4: the normalized placeholder-free path `foo/bar/myfile.foobar`
survives the create/use round trip. -/
theorem C4_witness :
    (([chars "foo", chars "bar", chars "myfile.foobar"] : List Str) ≠ []
      ∧ ∀ seg ∈ ([chars "foo", chars "bar", chars "myfile.foobar"] : List Str),
          seg ≠ [] ∧ seg ≠ ['.'] ∧ ∀ c ∈ seg, ¬ c = '/' ∧ ¬ c = '{' ∧ ¬ c = '}')
    ∧ ((ptInit [] [] []).bind (fun X =>
          create X (joinSegs [chars "foo", chars "bar", chars "myfile.foobar"]) [] [])).bind use
        = .ok (joinSegs [chars "foo", chars "bar", chars "myfile.foobar"]) :=
  ⟨⟨by decide, by decide⟩,
   C4_create_use_roundtrip [chars "foo", chars "bar", chars "myfile.foobar"]
     (by decide) (by decide) (by decide) (by decide)⟩

/-- Counterexample for C4 as stated: the placeholder-free path `foo//bar.x`
does not round-trip — pathlib normalizes away the empty segment, so
create/use returns `foo/bar.x`, not the original string. -/
theorem C4_counterexample :
    ((ptInit [] [] []).bind (fun X => create X (chars "foo//bar.x") [] [])).bind use
      = .ok (chars "foo/bar.x")
    ∧ chars "foo/bar.x" ≠ chars "foo//bar.x" := by decide

theorem mem_of_mem_splitSlash {s : Str} :
    ∀ p ∈ splitSlash s, ∀ c ∈ p, c ∈ s := by
  induction s with
  | nil =>
    intro p hp
    simp [splitSlash] at hp
    subst hp
    simp
  | cons c0 cs ih =>
    intro p hp
    by_cases hc : c0 = '/'
    · rw [splitSlash, if_pos hc] at hp
      rcases List.mem_cons.mp hp with h1 | h2
      · subst h1; simp
      · intro x hx
        exact List.mem_cons_of_mem c0 (ih p h2 x hx)
    · rw [splitSlash, if_neg hc] at hp
      cases hsd : splitSlash cs with
      | nil =>
        rw [hsd] at hp
        simp at hp
        subst hp
        intro x hx
        simp at hx
        simp [hx]
      | cons h t =>
        rw [hsd] at hp
        rcases List.mem_cons.mp hp with h1 | h2
        · subst h1
          intro x hx
          rcases List.mem_cons.mp hx with h3 | h4
          · simp [h3]
          · exact List.mem_cons_of_mem c0 (ih h (by rw [hsd]; simp) x h4)
        · intro x hx
          exact List.mem_cons_of_mem c0 (ih p (by rw [hsd]; simp [h2]) x hx)

theorem mem_parseRel_parts {s p : Str} (hp : p ∈ (parseRel s).parts) :
    ∀ c ∈ p, c ∈ s := by
  have : p ∈ splitSlash s := List.mem_of_mem_filter hp
  exact mem_of_mem_splitSlash p this

theorem join_parts2 (p : PyPath) (b : List Str) :
    p.join ⟨false, b⟩ = ⟨p.root, p.parts ++ b⟩ := rfl

theorem mem_join_parts {p q : PyPath} {seg : Str}
    (hseg : seg ∈ (p.join q).parts) : seg ∈ p.parts ∨ seg ∈ q.parts := by
  rw [PyPath.join] at hseg
  by_cases hq : q.root
  · rw [if_pos hq] at hseg
    exact .inr hseg
  · rw [if_neg hq] at hseg
    simpa using List.mem_append.mp hseg

/-- The chain of dotted extensions is a literal tail of the name. -/
theorem chain_is_tail (nm : Str) :
    ∃ pre, pre ++ listJoin (nameSuffixes nm) = nm := by
  by_cases hch : listJoin (nameSuffixes nm) = []
  · exact ⟨nm, by rw [hch, List.append_nil]⟩
  · obtain ⟨h2, _, _, hdecomp, _, _⟩ := chain_decomp nm hch
    exact ⟨nm.takeWhile (fun c => c = '.') ++ h2, hdecomp⟩

/-- C6 (amended: provided the assembled filename `template ++ affix` has at
most one dotted extension, i.e. its full extension chain equals its last
extension): with an append-mode alternate-suffix record, `use()` appends
the base suffix and then the alternate value onto the extension chain of
the assembled filename, replacing nothing: the rendered path is the
directory prefix followed by `template ++ affix ++ baseSuffix ++ altValue`.
With two or more extensions the code duplicates part of the filename (see
the counterexample). -/
theorem C6_append_altsuffix (X : PT) (tv ds t bs av n : Str)
    (h1 : X.topdirName.isSome = true)
    (h2 : X.topdirValue = some tv)
    (h3 : X.directory = some (.strv ds))
    (h4 : X.filenameTemplate = some t)
    (h5 : X.altsuffixName = some n)
    (h6 : X.altsuffixAppend = true)
    (h7 : X.altsuffixValue = av)
    (h8 : X.suffix = some bs)
    (hcb1 : t ++ X.filenameAffix ≠ [])
    (hcb2 : t ++ X.filenameAffix ≠ ['.'])
    (hcb3 : ∀ c ∈ t ++ X.filenameAffix, ¬ c = '/' ∧ ¬ c = '{' ∧ ¬ c = '}')
    (hone : listJoin (nameSuffixes (t ++ X.filenameAffix))
              = nameSuffix (t ++ X.filenameAffix))
    (hsuf1 : (listJoin (nameSuffixes (t ++ X.filenameAffix)) ++ (bs ++ av)).head?
              = some '.')
    (hsuf2 : listJoin (nameSuffixes (t ++ X.filenameAffix)) ++ (bs ++ av) ≠ ['.'])
    (hbsav : bs ++ av ≠ [])
    (hsl : ∀ c ∈ bs ++ av, ¬ c = '/' ∧ ¬ c = '{' ∧ ¬ c = '}')
    (htv : ∀ c ∈ tv, ¬ c = '{' ∧ ¬ c = '}')
    (hds : ∀ c ∈ ds, ¬ c = '{' ∧ ¬ c = '}') :
    use X = .ok (PyPath.str
      ⟨((parseRel tv).join (parseRel ds)).root,
       ((parseRel tv).join (parseRel ds)).parts
         ++ [t ++ X.filenameAffix ++ (bs ++ av)]⟩) := by
  set cb := t ++ X.filenameAffix with hcb
  set chain := listJoin (nameSuffixes cb) with hchaindef
  set pd := (parseRel tv).join (parseRel ds) with hpd
  have hinit : isInit X = true := by simp [isInit, h1, h3, h4]
  have hg : getDirectoryAspathlib X = .ok pd := by
    simp [getDirectoryAspathlib, hinit, h2, h3, hpd]
  have hcta : combinedTemplateAffix X = cb := by
    simp [combinedTemplateAffix, h4, hcb]
  have heff : effSuffix X = .ok (some (bs ++ av)) := by
    simp [effSuffix, h5, h6, h8, h7]
  have hprel : parseRel cb = ⟨false, [cb]⟩ :=
    parseRel_single hcb1 hcb2 (fun c hc => (hcb3 c hc).1)
  have hchsub : ∀ c ∈ chain, c ∈ cb := by
    intro c hc
    obtain ⟨pre, hpre⟩ := chain_is_tail cb
    rw [← hpre]
    exact List.mem_append_right _ hc
  have hsufslash : ∀ c ∈ chain ++ (bs ++ av), ¬ c = '/' := by
    intro c hc
    rcases List.mem_append.mp hc with h | h
    · exact (hcb3 c (hchsub c h)).1
    · exact (hsl c h).1
  have hws : PyPath.withSuffix ⟨pd.root, pd.parts ++ [cb]⟩ (chain ++ (bs ++ av))
      = .ok ⟨pd.root, pd.parts ++ [cb ++ (bs ++ av)]⟩ := by
    rw [withSuffix_concat pd.root pd.parts cb (chain ++ (bs ++ av))
          hsufslash hsuf1 hsuf2]
    rw [← hone]
    by_cases hch : chain = []
    · rw [if_pos hch, hch]
      simp
    · rw [if_neg hch]
      obtain ⟨pre, hpre⟩ := chain_is_tail cb
      rw [← hchaindef] at hpre
      have htake : cb.take (cb.length - chain.length) = pre := by
        conv_lhs => rw [← hpre]
        rw [List.length_append, Nat.add_sub_cancel]
        exact List.take_left _ _
      rw [htake, ← List.append_assoc, hpre]
  have hvf : vformatPartial X.formatDict
      (PyPath.str ⟨pd.root, pd.parts ++ [cb ++ (bs ++ av)]⟩)
      = .ok (PyPath.str ⟨pd.root, pd.parts ++ [cb ++ (bs ++ av)]⟩) := by
    apply vformatPartial_no_brace
    intro c hc
    rw [str_parts (by simp) pd.root] at hc
    rcases List.mem_append.mp hc with h | h
    · refine ⟨?_, ?_⟩ <;>
      · intro h0
        subst h0
        split at h <;> simp_all
    · rcases mem_joinSegs h with h0 | ⟨seg, hsm, hcm⟩
      · subst h0
        exact ⟨by decide, by decide⟩
      · rcases List.mem_append.mp hsm with hs1 | hs2
        · rcases mem_join_parts hs1 with hp1 | hp2
          · exact htv c (mem_parseRel_parts hp1 c hcm)
          · exact hds c (mem_parseRel_parts hp2 c hcm)
        · simp at hs2
          subst hs2
          rcases List.mem_append.mp hcm with hm1 | hm2
          · exact ⟨(hcb3 c hm1).2.1, (hcb3 c hm1).2.2⟩
          · exact ⟨(hsl c hm2).2.1, (hsl c hm2).2.2⟩
  rw [use]
  show (do
    let dirP ← getDirectoryAspathlib X
    let p1 := dirP.join (parseRel (combinedTemplateAffix X))
    let sfx ← effSuffix X
    let p2 ← (match sfx with
      | some s =>
        if s ≠ [] then p1.withSuffix (listJoin p1.suffixes ++ s) else .ok p1
      | none => .ok p1)
    vformatPartial X.formatDict p2.str) = _
  rw [hg, hcta, heff]
  show (do
    let p2 ← (if (bs ++ av) ≠ [] then
        (pd.join (parseRel cb)).withSuffix
          (listJoin (pd.join (parseRel cb)).suffixes ++ (bs ++ av))
      else .ok (pd.join (parseRel cb)))
    vformatPartial X.formatDict p2.str) = _
  rw [if_pos hbsav, hprel, join_parts2]
  show (do
    let p2 ← PyPath.withSuffix ⟨pd.root, pd.parts ++ [cb]⟩
        (listJoin (PyPath.suffixes ⟨pd.root, pd.parts ++ [cb]⟩) ++ (bs ++ av))
    vformatPartial X.formatDict p2.str) = _
  rw [suffixes_concat]
  show (do
    let p2 ← PyPath.withSuffix ⟨pd.root, pd.parts ++ [cb]⟩ (chain ++ (bs ++ av))
    vformatPartial X.formatDict p2.str) = _
  rw [hws]
  show vformatPartial X.formatDict
      (PyPath.str ⟨pd.root, pd.parts ++ [cb ++ (bs ++ av)]⟩) = _
  rw [hvf]

/-- Witness for C6: base suffix `.foobar` with appending alternate `.tar`
renders a filename ending `.foobar.tar`. -/
theorem C6_witness :
    use { defaultPT with
            directory := some (.strv (chars "foo/bar")),
            filenameTemplate := some (chars "myfile"),
            suffix := some (chars ".foobar"),
            altsuffixName := some (chars "tar"),
            altsuffixValue := chars ".tar",
            altsuffixAppend := true }
      = .ok (PyPath.str
          ⟨((parseRel []).join (parseRel (chars "foo/bar"))).root,
           ((parseRel []).join (parseRel (chars "foo/bar"))).parts
             ++ [chars "myfile" ++ ({ defaultPT with
                   directory := some (.strv (chars "foo/bar")),
                   filenameTemplate := some (chars "myfile"),
                   suffix := some (chars ".foobar"),
                   altsuffixName := some (chars "tar"),
                   altsuffixValue := chars ".tar",
                   altsuffixAppend := true } : PT).filenameAffix
                 ++ (chars ".foobar" ++ chars ".tar")]⟩)
    ∧ use { defaultPT with
              directory := some (.strv (chars "foo/bar")),
              filenameTemplate := some (chars "myfile"),
              suffix := some (chars ".foobar"),
              altsuffixName := some (chars "tar"),
              altsuffixValue := chars ".tar",
              altsuffixAppend := true }
        = .ok (chars "foo/bar/myfile.foobar.tar") :=
  ⟨C6_append_altsuffix
      { defaultPT with
          directory := some (.strv (chars "foo/bar")),
          filenameTemplate := some (chars "myfile"),
          suffix := some (chars ".foobar"),
          altsuffixName := some (chars "tar"),
          altsuffixValue := chars ".tar",
          altsuffixAppend := true }
      [] (chars "foo/bar") (chars "myfile") (chars ".foobar")
      (chars ".tar") (chars "tar") (by decide) (by decide) (by decide) (by decide)
      (by decide) (by decide) (by decide) (by decide) (by decide) (by decide)
      (by decide) (by decide) (by decide) (by decide) (by decide) (by decide)
      (by decide) (by decide),
   by decide⟩

/-- Counterexample for C6 as stated: with an assembled filename carrying
two dotted extensions (`a.b.c`), base suffix `.s` and appending alternate
`.tar`, the code renders `d/a.b.b.c.s.tar` — it re-appends the full chain
after stripping only the last extension, duplicating `.b` — not the
claimed `d/a.b.c.s.tar`. -/
theorem C6_counterexample :
    use { defaultPT with
            directory := some (.strv (chars "d")),
            filenameTemplate := some (chars "a.b.c"),
            suffix := some (chars ".s"),
            altsuffixName := some (chars "tar"),
            altsuffixValue := chars ".tar",
            altsuffixAppend := true }
      = .ok (chars "d/a.b.b.c.s.tar")
    ∧ chars "d/a.b.b.c.s.tar" ≠ chars "d/a.b.c.s.tar" := by decide

end PathTemplaterModel
